import Mathlib

/-!
# Verification of the Jottin multi-target sync engine

A shallow embedding, in Lean 4, of the parts of the Jottin note-taking
application that its synchronization specification talks about:

* the import-conflict resolver (`detectConflicts` / `resolveConflict`,
  from the import-conflict utility module);
* the markdown mirror converter (`noteToMarkdown` / `markdownToNote`);
* the cloud sync engine (`performCloudSync`, `syncDeleteToCloud` and the
  debounced `syncNoteToFile`, from `syncManager.ts`);
* the encryption engine (`encrypt` / `decrypt` / `deriveKey`, from
  `encryption.ts`).

TypeScript values are embedded as follows: strings are `String`, JavaScript
timestamps (`Date` values compared via their millisecond epoch value, and
`Date.now()`) are `Nat` milliseconds, optional fields are `Option`,
byte strings (`Uint8Array`, and the char-code strings fed to `btoa`) are
`List Nat` with each entry `< 256`.  Fallible operations return `Option`.
-/

namespace Jottin

/-- The `Note` record of `types.ts`: `id`, `title`, `content`, optional
`domain`, a `date` string, a legacy optional scalar `collectionId`, an
optional list `collectionIds`, and an optional `isPinned` flag. -/
structure Note where
  id : String
  title : String
  content : String
  domain : Option String := none
  date : String
  collectionId : Option String := none
  collectionIds : Option (List String) := none
  isPinned : Option Bool := none
deriving DecidableEq, Repr

/-- The `Collection` record of `types.ts`. -/
structure Collection where
  id : String
  name : String
  icon : String
deriving DecidableEq, Repr

/-! ## ImportConflictResolver (import-conflict utility module) -/

/-- A detected conflict pair, as in the import-conflict utility module. -/
structure ImportConflict where
  existingNote : Note
  importedNote : Note
deriving DecidableEq, Repr

/-- The three resolution policies. -/
inductive ConflictResolution where
  | skip
  | replace
  | keepBoth
deriving DecidableEq, Repr

/-- `detectConflicts(existingNotes, importedNotes)`: for each imported note,
first look for an existing note with the same `id`; failing that, look for an
existing note whose `title` matches case-insensitively and whose (legacy
scalar) `collectionId` matches.  The first match found, if any, is recorded
as a conflict pair, and the scan moves to the next imported note. -/
def detectConflicts (existingNotes : List Note) : List Note → List ImportConflict
  | [] => []
  | importedNote :: rest =>
    match existingNotes.find? (fun n => n.id == importedNote.id) with
    | some existingById =>
      ⟨existingById, importedNote⟩ :: detectConflicts existingNotes rest
    | none =>
      match existingNotes.find? (fun n =>
          n.title.toLower == importedNote.title.toLower &&
          n.collectionId == importedNote.collectionId) with
      | some existingByTitle =>
        ⟨existingByTitle, importedNote⟩ :: detectConflicts existingNotes rest
      | none => detectConflicts existingNotes rest

/-- The keep/add answer of `resolveConflict`. -/
structure Resolution where
  noteToKeep : Option Note
  noteToAdd : Option Note
deriving DecidableEq, Repr

/-- `resolveConflict(conflict, resolution)`.  The `keep-both` branch mints the
new id as `` `${importedNote.id}-imported-${Date.now()}` ``; the current clock
reading `now` (`Date.now()`, epoch milliseconds) is passed explicitly. -/
def resolveConflict (conflict : ImportConflict) (resolution : ConflictResolution)
    (now : Nat) : Resolution :=
  match resolution with
  | .skip => ⟨some conflict.existingNote, none⟩
  | .replace => ⟨some conflict.importedNote, none⟩
  | .keepBoth =>
    let newNote : Note :=
      { conflict.importedNote with
        id := conflict.importedNote.id ++ "-imported-" ++ toString now
        title := conflict.importedNote.title ++ " (imported)" }
    ⟨some conflict.existingNote, some newNote⟩

/-- The match predicate that makes `detectConflicts` record a conflict for an
imported note `n`: some existing note shares its id, or some existing note
matches it on lower-cased title and on (legacy scalar) collection id. -/
def conflictReason (existingNotes : List Note) (n : Note) : Prop :=
  (∃ e ∈ existingNotes, e.id = n.id) ∨
  (∃ e ∈ existingNotes, e.title.toLower = n.title.toLower ∧
    e.collectionId = n.collectionId)

instance (existingNotes : List Note) (n : Note) :
    Decidable (conflictReason existingNotes n) := by
  unfold conflictReason; infer_instance

/-- Soundness half of C6: every pair recorded by `detectConflicts` has its
imported note drawn from the imported list, and that note satisfies the match
predicate. -/
theorem detectConflicts_sound (existingNotes : List Note) :
    ∀ {l : List Note} {c : ImportConflict},
      c ∈ detectConflicts existingNotes l →
      c.importedNote ∈ l ∧ conflictReason existingNotes c.importedNote := by
  intro l
  induction l with
  | nil => intro c hc; simp [detectConflicts] at hc
  | cons i rest ih =>
    intro c hc
    rw [detectConflicts] at hc
    split at hc
    · rename_i e hf
      rcases List.mem_cons.mp hc with hceq | hctail
      · subst hceq
        have hp := List.find?_some hf
        rw [beq_iff_eq] at hp
        exact ⟨List.mem_cons_self _ _,
          Or.inl ⟨e, List.mem_of_find?_eq_some hf, hp⟩⟩
      · obtain ⟨hmem, hr⟩ := ih hctail
        exact ⟨List.mem_cons_of_mem _ hmem, hr⟩
    · split at hc
      · rename_i e hf
        rcases List.mem_cons.mp hc with hceq | hctail
        · subst hceq
          have hp := List.find?_some hf
          rw [Bool.and_eq_true, beq_iff_eq, beq_iff_eq] at hp
          exact ⟨List.mem_cons_self _ _,
            Or.inr ⟨e, List.mem_of_find?_eq_some hf, hp.1, hp.2⟩⟩
        · obtain ⟨hmem, hr⟩ := ih hctail
          exact ⟨List.mem_cons_of_mem _ hmem, hr⟩
      · obtain ⟨hmem, hr⟩ := ih hc
        exact ⟨List.mem_cons_of_mem _ hmem, hr⟩

/-- Completeness half of C6: every imported note satisfying the match
predicate appears as the imported component of some recorded conflict. -/
theorem detectConflicts_complete (existingNotes : List Note) :
    ∀ {l : List Note} {n : Note}, n ∈ l →
      conflictReason existingNotes n →
      ∃ c ∈ detectConflicts existingNotes l, c.importedNote = n := by
  intro l
  induction l with
  | nil => intro n hn; simp at hn
  | cons i rest ih =>
    intro n hn hr
    rw [detectConflicts]
    rcases List.mem_cons.mp hn with hni | hnrest
    · subst hni
      cases hf : existingNotes.find? (fun e => e.id == n.id) with
      | some e => exact ⟨⟨e, n⟩, by simp [hf], rfl⟩
      | none =>
        have hnoid : ∀ e ∈ existingNotes, e.id ≠ n.id := by
          intro e he
          have := List.find?_eq_none.mp hf e he
          simpa using this
        rcases hr with ⟨e, he, heq⟩ | ⟨e, he, ht, hcoll⟩
        · exact absurd heq (hnoid e he)
        · have hsome : (existingNotes.find? (fun m =>
              m.title.toLower == n.title.toLower &&
              m.collectionId == n.collectionId)).isSome := by
            rw [List.find?_isSome]
            exact ⟨e, he, by simp [ht, hcoll]⟩
          cases hf2 : existingNotes.find? (fun m =>
              m.title.toLower == n.title.toLower &&
              m.collectionId == n.collectionId) with
          | some e2 => exact ⟨⟨e2, n⟩, by simp [hf, hf2], rfl⟩
          | none => rw [hf2] at hsome; simp at hsome
    · obtain ⟨c, hc, hcn⟩ := ih hnrest hr
      refine ⟨c, ?_, hcn⟩
      split
      · exact List.mem_cons_of_mem _ hc
      · split
        · exact List.mem_cons_of_mem _ hc
        · exact hc

/-- C6.  Conflict detection rule: for every pair of lists and every imported
note `n`, `detectConflicts` declares a conflict whose imported component is
`n` exactly when some existing note has the same id, or — failing an id
match — some existing note matches `n` on case-insensitively compared title
and on collection. -/
theorem detectConflicts_iff (existingNotes importedNotes : List Note) (n : Note)
    (hn : n ∈ importedNotes) :
    (∃ c ∈ detectConflicts existingNotes importedNotes, c.importedNote = n) ↔
      ((∃ e ∈ existingNotes, e.id = n.id) ∨
       (¬ (∃ e ∈ existingNotes, e.id = n.id) ∧
        ∃ e ∈ existingNotes, e.title.toLower = n.title.toLower ∧
          e.collectionId = n.collectionId)) := by
  constructor
  · intro ⟨c, hc, hcn⟩
    have := (detectConflicts_sound existingNotes hc).2
    rw [hcn] at this
    rcases this with h | h
    · exact Or.inl h
    · by_cases hid : ∃ e ∈ existingNotes, e.id = n.id
      · exact Or.inl hid
      · exact Or.inr ⟨hid, h⟩
  · intro h
    apply detectConflicts_complete existingNotes hn
    rcases h with h | ⟨_, h⟩
    · exact Or.inl h
    · exact Or.inr h

/-- Witness for C6 at a concrete input: the imported note matches an existing
note by id. -/
theorem detectConflicts_iff_witness :
    let e : Note := { id := "n1", title := "A", content := "x", date := "d" }
    let m : Note := { id := "n1", title := "B", content := "y", date := "d" }
    (∃ c ∈ detectConflicts [e] [m], c.importedNote = m) ↔
      ((∃ x ∈ [e], x.id = m.id) ∨
       (¬ (∃ x ∈ [e], x.id = m.id) ∧
        ∃ x ∈ [e], x.title.toLower = m.title.toLower ∧
          x.collectionId = m.collectionId)) :=
  detectConflicts_iff [{ id := "n1", title := "A", content := "x", date := "d" }]
    [{ id := "n1", title := "B", content := "y", date := "d" }]
    { id := "n1", title := "B", content := "y", date := "d" } (by decide)

/-- C7 counterexample.  The claim asserts that, for a fixed
(existingNotes, importedNotes, policy) triple, `resolveConflict` always
returns the same keep/add pair and that under keep-both the minted id never
equals an existing note's id.  Both parts fail on the code: the minted id
embeds `Date.now()`, so two runs at clock readings 0 and 1 on the same
conflict disagree; and an existing note whose id is literally
"a-imported-5" collides with the id minted at clock reading 5 for an
imported note with id "a". -/
theorem resolveConflict_claim_false :
    (resolveConflict
        ⟨{ id := "a-imported-5", title := "t", content := "c", date := "d" },
         { id := "a", title := "u", content := "c2", date := "d" }⟩
        ConflictResolution.keepBoth 0 ≠
      resolveConflict
        ⟨{ id := "a-imported-5", title := "t", content := "c", date := "d" },
         { id := "a", title := "u", content := "c2", date := "d" }⟩
        ConflictResolution.keepBoth 1) ∧
    ((resolveConflict
        ⟨{ id := "a-imported-5", title := "t", content := "c", date := "d" },
         { id := "a", title := "u", content := "c2", date := "d" }⟩
        ConflictResolution.keepBoth 5).noteToAdd.map Note.id =
      some "a-imported-5") := by
  constructor
  · decide
  · rfl

/-- C7 amended.  `resolveConflict` is deterministic once the clock reading is
fixed: the skip and replace policies ignore the clock entirely, and two
keep-both runs with the same clock reading agree (the function is pure in its
three arguments).  Under keep-both the minted id is the imported id suffixed
with "-imported-" and the clock value, so it never equals the imported note's
own id; in particular, when the conflict was declared by an id match, it
never equals that existing note's id. -/
theorem resolveConflict_amended (conflict : ImportConflict) (t₁ t₂ : Nat) :
    (resolveConflict conflict ConflictResolution.skip t₁ =
      resolveConflict conflict ConflictResolution.skip t₂) ∧
    (resolveConflict conflict ConflictResolution.replace t₁ =
      resolveConflict conflict ConflictResolution.replace t₂) ∧
    (∀ n, (resolveConflict conflict ConflictResolution.keepBoth t₁).noteToAdd =
        some n →
      n.id ≠ conflict.importedNote.id ∧
      (conflict.existingNote.id = conflict.importedNote.id →
        n.id ≠ conflict.existingNote.id)) := by
  refine ⟨rfl, rfl, ?_⟩
  intro n hn
  have hid : n.id = conflict.importedNote.id ++ "-imported-" ++ toString t₁ := by
    simp [resolveConflict] at hn
    rw [← hn]
  have hne : n.id ≠ conflict.importedNote.id := by
    intro h
    rw [hid] at h
    have := congrArg String.length h
    simp [String.length_append] at this
    rw [show ("-imported-" : String).length = 10 from rfl] at this
    omega
  exact ⟨hne, fun he => by rw [he]; exact hne⟩

/-- Witness for C7's amended theorem: at a concrete id-matching conflict and
clock reading 7, the minted note's id differs from both the imported and the
existing id. -/
theorem resolveConflict_amended_witness :
    (resolveConflict
        ⟨{ id := "a", title := "t", content := "c", date := "d" },
         { id := "a", title := "u", content := "c2", date := "d" }⟩
        ConflictResolution.skip 0 =
      resolveConflict
        ⟨{ id := "a", title := "t", content := "c", date := "d" },
         { id := "a", title := "u", content := "c2", date := "d" }⟩
        ConflictResolution.skip 1) ∧
    (resolveConflict
        ⟨{ id := "a", title := "t", content := "c", date := "d" },
         { id := "a", title := "u", content := "c2", date := "d" }⟩
        ConflictResolution.replace 0 =
      resolveConflict
        ⟨{ id := "a", title := "t", content := "c", date := "d" },
         { id := "a", title := "u", content := "c2", date := "d" }⟩
        ConflictResolution.replace 1) ∧
    (∀ n, (resolveConflict
        ⟨{ id := "a", title := "t", content := "c", date := "d" },
         { id := "a", title := "u", content := "c2", date := "d" }⟩
        ConflictResolution.keepBoth 0).noteToAdd = some n →
      n.id ≠ "a" ∧ ("a" = "a" → n.id ≠ "a")) :=
  resolveConflict_amended
    ⟨{ id := "a", title := "t", content := "c", date := "d" },
     { id := "a", title := "u", content := "c2", date := "d" }⟩ 0 1

/-! ## CloudSyncEngine (`syncManager.ts`)

Timestamps (`Date` values, compared and serialized through their epoch value)
are embedded as `Nat` milliseconds.  The local `Note` record is embedded for
this component as `SNote`, identical to `Note` except that the `date` string
has already been parsed to its numeric value: every use of a local note's
`date` in `performCloudSync` goes through `new Date(...)`, and the value the
merge writes back (`new Date(remoteNote.date).toISOString()`) is the
round-tripped numeric value, so the string layer cancels out. -/

/-- Epoch milliseconds. -/
abbrev Millis := Nat

/-- A local note record as the cloud sync engine sees it (`date` parsed to
epoch milliseconds, other fields as in `Note`). -/
structure SNote where
  id : String
  title : String
  content : String
  domain : Option String := none
  date : Millis
  collectionId : Option String := none
  collectionIds : Option (List String) := none
  isPinned : Option Bool := none
deriving DecidableEq, Repr

/-- The transport record sent to / received from `/api/sync/push`
(`SyncNote`): base64 ciphertext and IV, timestamps as epoch milliseconds,
`deletedAt` the optional tombstone. -/
structure RemoteNote where
  id : String
  userId : String
  title : String
  contentEncrypted : String
  contentIV : String
  domain : Option String := none
  date : Millis
  isPinned : Bool
  collectionIds : Option (List String) := none
  createdAt : Millis
  updatedAt : Millis
  deletedAt : Option Millis := none
deriving DecidableEq, Repr

/-- `db.notes.get(id)`: the record with the given id, if any. -/
def dbGet (store : List SNote) (id : String) : Option SNote :=
  store.find? (fun n => n.id == id)

/-- `db.notes.delete(id)`: hard-delete the record with the given id. -/
def dbDelete (store : List SNote) (id : String) : List SNote :=
  store.filter (fun n => !(n.id == id))

/-- `db.notes.update(id, fields)`: partial merge of the supplied fields into
the record with the given id (other records untouched). -/
def dbUpdate (store : List SNote) (id : String) (f : SNote → SNote) : List SNote :=
  store.map (fun n => if n.id == id then f n else n)

/-- `db.notes.add(note)`: insert a new record. -/
def dbAdd (store : List SNote) (n : SNote) : List SNote :=
  store ++ [n]

/-- The body of the per-record loop of `performCloudSync` (the
`for (const remoteNote of syncResponse.notes)` iteration): tombstones are
hard-deleted without decryption; otherwise the remote body is decrypted (a
`none` result models a decryption error, which the per-record `catch`
swallows, leaving the store untouched for that record) and the remote
version overwrites the local fields when no local copy exists or
`new Date(remoteNote.updatedAt) >= new Date(localNote.date)`. -/
def mergeRemoteNote (decrypt : String → String → Option String)
    (store : List SNote) (remoteNote : RemoteNote) : List SNote :=
  if remoteNote.deletedAt.isSome then
    match dbGet store remoteNote.id with
    | some _ => dbDelete store remoteNote.id
    | none => store
  else
    match decrypt remoteNote.contentEncrypted remoteNote.contentIV with
    | none => store
    | some decryptedContent =>
      let localNote := dbGet store remoteNote.id
      let localUpdated : Millis := match localNote with
        | some ln => ln.date
        | none => 0
      if localNote.isNone || decide (remoteNote.updatedAt ≥ localUpdated) then
        match localNote with
        | some _ =>
          dbUpdate store remoteNote.id (fun ln =>
            { ln with
              title := remoteNote.title
              content := decryptedContent
              domain := remoteNote.domain
              date := remoteNote.date
              collectionIds := some (remoteNote.collectionIds.getD [])
              isPinned := some remoteNote.isPinned })
        | none =>
          dbAdd store
            { id := remoteNote.id
              title := remoteNote.title
              content := decryptedContent
              domain := remoteNote.domain
              date := remoteNote.date
              collectionId := none
              collectionIds := some (remoteNote.collectionIds.getD [])
              isPinned := some remoteNote.isPinned }
      else store

/-- The whole per-record merge loop, left to right over the remote records. -/
def mergeRemoteNotes (decrypt : String → String → Option String)
    (store : List SNote) : List RemoteNote → List SNote
  | [] => store
  | r :: rest => mergeRemoteNotes decrypt (mergeRemoteNote decrypt store r) rest

/-- The collection merge loop of `performCloudSync`: update name and icon in
place when the id exists, insert otherwise. -/
def mergeRemoteCollection (colls : List Collection) (rc : Collection) :
    List Collection :=
  if (colls.find? (fun c => c.id == rc.id)).isSome then
    colls.map (fun c => if c.id == rc.id then
      { c with name := rc.name, icon := rc.icon } else c)
  else colls ++ [rc]

/-- The environment a reconciliation pass runs against: session state, sync
setting, whether the network push succeeds, the snapshot the server returns,
the server timestamp recorded on success, and the decryption function
(`none` = decryption error for that ciphertext/IV pair). -/
structure CloudEnv where
  authenticated : Bool
  cloudSyncEnabled : Bool
  pushOk : Bool
  remoteNotes : List RemoteNote
  remoteCollections : List Collection
  serverTime : Millis
  decrypt : String → String → Option String

/-- The mutable state `performCloudSync` touches: the in-flight guard, the
local note and collection stores, and the recorded last sync time. -/
structure SyncState where
  isCloudSyncing : Bool
  notes : List SNote
  collections : List Collection
  lastCloudSyncTime : Option Millis
deriving DecidableEq, Repr

/-- How a call to `performCloudSync` ended: the early-return paths, the outer
`catch` path (push failure, error rethrown), or completion. -/
inductive SyncOutcome where
  | skippedInFlight
  | skippedNotAuthenticated
  | skippedDisabled
  | pushFailed
  | completed
deriving DecidableEq, Repr

/-- The `try` body of `performCloudSync`, entered with the guard set: a
failed push throws (outer catch, state untouched); otherwise the remote
snapshot is merged into the local stores and the last sync time recorded. -/
def syncBody (env : CloudEnv) (st : SyncState) : SyncState × SyncOutcome :=
  if !env.pushOk then (st, .pushFailed)
  else
    ({ st with
        notes := mergeRemoteNotes env.decrypt st.notes env.remoteNotes
        collections := env.remoteCollections.foldl mergeRemoteCollection st.collections
        lastCloudSyncTime := some env.serverTime },
      .completed)

/-- `performCloudSync`: no-op when already in flight, early return when the
session is unauthenticated or cloud sync is disabled; otherwise the guard is
set, the body runs, and the `finally` clears the guard on every exit path. -/
def performCloudSync (env : CloudEnv) (st : SyncState) : SyncState × SyncOutcome :=
  if st.isCloudSyncing then (st, .skippedInFlight)
  else if !env.authenticated then (st, .skippedNotAuthenticated)
  else if !env.cloudSyncEnabled then (st, .skippedDisabled)
  else
    let entered := { st with isCloudSyncing := true }
    let result := syncBody env entered
    ({ result.1 with isCloudSyncing := false }, result.2)

/-- `syncDeleteToCloud(noteId)`: returns the tombstone record posted to the
push endpoint, or `none` when nothing is sent (cloud sync disabled, session
unauthenticated, or no local record with that id). -/
def syncDeleteToCloud (cloudSyncEnabled authenticated : Bool) (userId : String)
    (store : List SNote) (noteId : String) (now : Millis) : Option RemoteNote :=
  if !cloudSyncEnabled || !authenticated then none
  else
    match dbGet store noteId with
    | none => none
    | some note =>
      some
        { id := noteId
          userId := userId
          title := note.title
          contentEncrypted := ""
          contentIV := ""
          domain := note.domain
          date := note.date
          isPinned := false
          collectionIds := some []
          createdAt := now
          updatedAt := now
          deletedAt := some now }

/-! ### Store lemmas -/

theorem dbGet_dbUpdate_self (store : List SNote) (id : String) (f : SNote → SNote)
    (hf : ∀ n, (f n).id = n.id) :
    dbGet (dbUpdate store id f) id = (dbGet store id).map f := by
  induction store with
  | nil => rfl
  | cons n rest ih =>
    by_cases hn : n.id = id
    · simp [dbGet, dbUpdate, List.find?, hn, hf n]
    · simp only [dbGet, dbUpdate, List.map_cons] at *
      rw [if_neg (by simpa using hn)]
      rw [List.find?_cons_of_neg _ (by simpa using hn),
        List.find?_cons_of_neg _ (by simpa using hn)]
      exact ih

theorem dbGet_dbUpdate_other (store : List SNote) (id id' : String) (f : SNote → SNote)
    (hf : ∀ n, (f n).id = n.id) (hne : id' ≠ id) :
    dbGet (dbUpdate store id f) id' = dbGet store id' := by
  induction store with
  | nil => rfl
  | cons n rest ih =>
    by_cases hn : n.id = id
    · have hskip : ¬ n.id = id' := fun h => hne (h ▸ hn)
      simp only [dbGet, dbUpdate, List.map_cons] at *
      rw [if_pos (by simpa using hn)]
      rw [List.find?_cons_of_neg _ (by simp [hf n, hskip]),
        List.find?_cons_of_neg _ (by simpa using hskip)]
      exact ih
    · simp only [dbGet, dbUpdate, List.map_cons] at *
      rw [if_neg (by simpa using hn)]
      by_cases hn' : n.id = id'
      · rw [List.find?_cons_of_pos _ (by simpa using hn'),
          List.find?_cons_of_pos _ (by simpa using hn')]
      · rw [List.find?_cons_of_neg _ (by simpa using hn'),
          List.find?_cons_of_neg _ (by simpa using hn')]
        exact ih

theorem dbGet_dbAdd_self (store : List SNote) (n : SNote)
    (h : dbGet store n.id = none) :
    dbGet (dbAdd store n) n.id = some n := by
  induction store with
  | nil => simp [dbGet, dbAdd, List.find?]
  | cons m rest ih =>
    simp only [dbGet, dbAdd, List.cons_append] at *
    by_cases hm : m.id = n.id
    · rw [List.find?_cons_of_pos _ (by simpa using hm)] at h
      exact absurd h (by simp)
    · rw [List.find?_cons_of_neg _ (by simpa using hm)] at h
      rw [List.find?_cons_of_neg _ (by simpa using hm)]
      exact ih h

theorem dbGet_dbAdd_other (store : List SNote) (n : SNote) (id' : String)
    (hne : id' ≠ n.id) :
    dbGet (dbAdd store n) id' = dbGet store id' := by
  induction store with
  | nil =>
    have hb : (n.id == id') = false :=
      beq_eq_false_iff_ne.mpr (fun h => hne h.symm)
    simp [dbGet, dbAdd, List.find?_cons, hb]
  | cons m rest ih =>
    simp only [dbGet, dbAdd, List.cons_append] at *
    by_cases hm : m.id = id'
    · rw [List.find?_cons_of_pos _ (by simpa using hm),
        List.find?_cons_of_pos _ (by simpa using hm)]
    · rw [List.find?_cons_of_neg _ (by simpa using hm),
        List.find?_cons_of_neg _ (by simpa using hm)]
      exact ih

theorem dbGet_dbDelete_self (store : List SNote) (id : String) :
    dbGet (dbDelete store id) id = none := by
  induction store with
  | nil => rfl
  | cons n rest ih =>
    by_cases hn : n.id = id
    · simp only [dbGet, dbDelete, List.filter] at *
      rw [show (!(n.id == id)) = false by simpa using hn]
      exact ih
    · simp only [dbGet, dbDelete, List.filter] at *
      rw [show (!(n.id == id)) = true by simpa using hn]
      rw [List.find?_cons_of_neg _ (by simpa using hn)]
      exact ih

theorem dbGet_dbDelete_other (store : List SNote) (id id' : String)
    (hne : id' ≠ id) :
    dbGet (dbDelete store id) id' = dbGet store id' := by
  induction store with
  | nil => rfl
  | cons n rest ih =>
    by_cases hn : n.id = id
    · have hskip : ¬ n.id = id' := fun h => hne (h ▸ hn)
      simp only [dbGet, dbDelete, List.filter] at *
      rw [show (!(n.id == id)) = false by simpa using hn]
      rw [List.find?_cons_of_neg _ (by simpa using hskip)]
      exact ih
    · simp only [dbGet, dbDelete, List.filter] at *
      rw [show (!(n.id == id)) = true by simpa using hn]
      by_cases hn' : n.id = id'
      · rw [List.find?_cons_of_pos _ (by simpa using hn'),
          List.find?_cons_of_pos _ (by simpa using hn')]
      · rw [List.find?_cons_of_neg _ (by simpa using hn'),
          List.find?_cons_of_neg _ (by simpa using hn')]
        exact ih

/-! ### Claim theorems for the cloud sync engine -/

/-- C1.  Last-writer-wins merge: for a remote record without `deletedAt`
whose body decrypts to `pt`, the merge leaves every other record untouched;
when no local copy exists, the remote version is inserted with the remote
fields; when a local copy `ln` exists, the stored record becomes `ln` with
the remote fields (title, content, domain, date, collections, pinned flag)
overwriting it exactly when the remote `updatedAt` is greater than or equal
to the local timestamp (remote wins ties), and stays `ln` unchanged
otherwise — i.e. the merged result is the operand with the larger timestamp,
remote-favoring on ties. -/
theorem mergeRemoteNote_lww (decrypt : String → String → Option String)
    (store : List SNote) (r : RemoteNote) (pt : String)
    (hdel : r.deletedAt = none)
    (hdec : decrypt r.contentEncrypted r.contentIV = some pt) :
    (dbGet store r.id = none →
      dbGet (mergeRemoteNote decrypt store r) r.id =
        some { id := r.id, title := r.title, content := pt, domain := r.domain,
               date := r.date, collectionId := none,
               collectionIds := some (r.collectionIds.getD []),
               isPinned := some r.isPinned }) ∧
    (∀ ln, dbGet store r.id = some ln →
      dbGet (mergeRemoteNote decrypt store r) r.id =
        some (if ln.date ≤ r.updatedAt
              then { ln with
                      title := r.title, content := pt, domain := r.domain,
                      date := r.date,
                      collectionIds := some (r.collectionIds.getD []),
                      isPinned := some r.isPinned }
              else ln)) ∧
    (∀ id', id' ≠ r.id →
      dbGet (mergeRemoteNote decrypt store r) id' = dbGet store id') := by
  refine ⟨?_, ?_, ?_⟩
  · intro hnone
    have he : mergeRemoteNote decrypt store r =
        dbAdd store
          { id := r.id, title := r.title, content := pt, domain := r.domain,
            date := r.date, collectionId := none,
            collectionIds := some (r.collectionIds.getD []),
            isPinned := some r.isPinned } := by
      simp [mergeRemoteNote, hdel, hdec, hnone]
    rw [he]
    exact dbGet_dbAdd_self store _ hnone
  · intro ln hsome
    by_cases hcmp : ln.date ≤ r.updatedAt
    · have he : mergeRemoteNote decrypt store r =
          dbUpdate store r.id (fun m =>
            { m with
                title := r.title, content := pt, domain := r.domain,
                date := r.date, collectionIds := some (r.collectionIds.getD []),
                isPinned := some r.isPinned }) := by
        simp [mergeRemoteNote, hdel, hdec, hsome, hcmp]
      rw [he, if_pos hcmp,
        dbGet_dbUpdate_self store r.id
          (fun m =>
            { m with
                title := r.title, content := pt, domain := r.domain,
                date := r.date, collectionIds := some (r.collectionIds.getD []),
                isPinned := some r.isPinned })
          (fun n => rfl), hsome]
      rfl
    · have he : mergeRemoteNote decrypt store r = store := by
        simp [mergeRemoteNote, hdel, hdec, hsome, hcmp]
      rw [he, if_neg hcmp]
      exact hsome
  · intro id' hne
    cases hsome : dbGet store r.id with
    | none =>
      have he : mergeRemoteNote decrypt store r =
          dbAdd store
            { id := r.id, title := r.title, content := pt, domain := r.domain,
              date := r.date, collectionId := none,
              collectionIds := some (r.collectionIds.getD []),
              isPinned := some r.isPinned } := by
        simp [mergeRemoteNote, hdel, hdec, hsome]
      rw [he]
      exact dbGet_dbAdd_other store _ id' hne
    | some ln =>
      by_cases hcmp : ln.date ≤ r.updatedAt
      · have he : mergeRemoteNote decrypt store r =
            dbUpdate store r.id (fun m =>
              { m with
                  title := r.title, content := pt, domain := r.domain,
                  date := r.date, collectionIds := some (r.collectionIds.getD []),
                  isPinned := some r.isPinned }) := by
          simp [mergeRemoteNote, hdel, hdec, hsome, hcmp]
        rw [he]
        exact dbGet_dbUpdate_other store r.id id'
          (fun m =>
            { m with
                title := r.title, content := pt, domain := r.domain,
                date := r.date, collectionIds := some (r.collectionIds.getD []),
                isPinned := some r.isPinned })
          (fun n => rfl) hne
      · have he : mergeRemoteNote decrypt store r = store := by
          simp [mergeRemoteNote, hdel, hdec, hsome, hcmp]
        rw [he]

/-- Witness for C1 at concrete inputs: a local record with timestamp 5
against a remote record with `updatedAt = 7` — the remote fields overwrite
the local record. -/
theorem mergeRemoteNote_lww_witness :
    dbGet (mergeRemoteNote (fun ct _ => if ct == "CT" then some "PT" else none)
        [{ id := "n1", title := "L", content := "old", date := 5 }]
        { id := "n1", userId := "u", title := "R", contentEncrypted := "CT",
          contentIV := "IV", date := 6, isPinned := true,
          collectionIds := some ["c1"], createdAt := 1, updatedAt := 7 }) "n1" =
      some (if (5 : Millis) ≤ 7
            then { ({ id := "n1", title := "L", content := "old", date := 5 } : SNote) with
                    title := "R", content := "PT", domain := none, date := 6,
                    collectionIds := some (some ["c1"] |>.getD []),
                    isPinned := some true }
            else { id := "n1", title := "L", content := "old", date := 5 }) :=
  (mergeRemoteNote_lww (fun ct _ => if ct == "CT" then some "PT" else none)
      [{ id := "n1", title := "L", content := "old", date := 5 }]
      { id := "n1", userId := "u", title := "R", contentEncrypted := "CT",
        contentIV := "IV", date := 6, isPinned := true,
        collectionIds := some ["c1"], createdAt := 1, updatedAt := 7 } "PT"
      rfl rfl).2.1
    { id := "n1", title := "L", content := "old", date := 5 } rfl

/-- C5.  Remote tombstone handling: for a remote record with `deletedAt`
set, the local copy (if any) is hard-deleted, the result does not depend on
the decryption function (no decryption is attempted for that record), and
the loop continues with the remaining records. -/
theorem mergeRemoteNote_tombstone (decrypt : String → String → Option String)
    (store : List SNote) (r : RemoteNote) (t : Millis)
    (hdel : r.deletedAt = some t) :
    (mergeRemoteNote decrypt store r =
      if (dbGet store r.id).isSome then dbDelete store r.id else store) ∧
    (∀ decrypt', mergeRemoteNote decrypt' store r =
      mergeRemoteNote decrypt store r) ∧
    (∀ rest, mergeRemoteNotes decrypt store (r :: rest) =
      mergeRemoteNotes decrypt (mergeRemoteNote decrypt store r) rest) := by
  have hdel' : r.deletedAt.isSome = true := by rw [hdel]; rfl
  have hmain : ∀ d : String → String → Option String,
      mergeRemoteNote d store r =
        if (dbGet store r.id).isSome then dbDelete store r.id else store := by
    intro d
    rw [mergeRemoteNote, hdel']
    simp only [if_pos rfl]
    cases hsome : dbGet store r.id with
    | none => simp [hsome]
    | some ln => simp [hsome]
  exact ⟨hmain decrypt, fun d' => (hmain d').trans (hmain decrypt).symm,
    fun rest => rfl⟩

/-- Witness for C5 at a concrete input: a tombstone for an existing local
record hard-deletes it. -/
theorem mergeRemoteNote_tombstone_witness :
    mergeRemoteNote (fun _ _ => some "x")
        [{ id := "n1", title := "L", content := "old", date := 5 }]
        { id := "n1", userId := "u", title := "R", contentEncrypted := "",
          contentIV := "", date := 6, isPinned := false, createdAt := 1,
          updatedAt := 7, deletedAt := some 9 } =
      (if (dbGet [{ id := "n1", title := "L", content := "old", date := 5 }]
            "n1").isSome
       then dbDelete [{ id := "n1", title := "L", content := "old", date := 5 }] "n1"
       else [{ id := "n1", title := "L", content := "old", date := 5 }]) :=
  (mergeRemoteNote_tombstone (fun _ _ => some "x")
      [{ id := "n1", title := "L", content := "old", date := 5 }]
      { id := "n1", userId := "u", title := "R", contentEncrypted := "",
        contentIV := "", date := 6, isPinned := false, createdAt := 1,
        updatedAt := 7, deletedAt := some 9 } 9 rfl).1

/-- A remote record whose ciphertext the concrete C4 environment fails to
decrypt. -/
def badRemoteC4 : RemoteNote :=
  { id := "bad1", userId := "u", title := "Bad", contentEncrypted := "bad",
    contentIV := "iv", date := 10, isPinned := false, createdAt := 1,
    updatedAt := 10 }

/-- A remote record, later in the same response, that decrypts fine. -/
def goodRemoteC4 : RemoteNote :=
  { id := "good1", userId := "u", title := "Good", contentEncrypted := "good",
    contentIV := "iv", date := 20, isPinned := false, createdAt := 1,
    updatedAt := 20 }

/-- A concrete reconciliation environment in which the first remote record
hits a decryption error and the second decrypts successfully. -/
def envC4 : CloudEnv :=
  { authenticated := true, cloudSyncEnabled := true, pushOk := true,
    remoteNotes := [badRemoteC4, goodRemoteC4], remoteCollections := [],
    serverTime := 100,
    decrypt := fun ct _ => if ct == "good" then some "PLAIN" else none }

/-- A concrete starting state: not in flight, empty local stores. -/
def stC4 : SyncState :=
  { isCloudSyncing := false, notes := [], collections := [],
    lastCloudSyncTime := none }

/-- C4 counterexample.  The claim says an error during the pass — it names
decryption errors explicitly — is caught and aborts the pass without
altering local state for the unprocessed remainder.  In the code the
per-record `catch` inside the merge loop swallows a decryption error and
the loop continues: in the concrete environment `envC4`, the first remote
record fails to decrypt, yet the pass completes and the second record is
still merged into the (initially empty) local store, so local state for the
remainder of the pass is altered. -/
theorem performCloudSync_claim_false :
    envC4.decrypt badRemoteC4.contentEncrypted badRemoteC4.contentIV = none ∧
    (performCloudSync envC4 stC4).2 = SyncOutcome.completed ∧
    (performCloudSync envC4 stC4).1.notes ≠ stC4.notes := by
  refine ⟨rfl, rfl, ?_⟩
  decide

/-- C4 amended.  The in-flight guard of `performCloudSync`: when a pass is
already in flight the call is a strict no-op; when it is not, the guard is
false again on every exit path, so the next timer tick can retry.  A network
push failure aborts the pass with local state untouched.  A per-record
decryption error, however, only skips that record: the loop continues with
the remaining records (this is where the original claim overreached — such
an error does not abort the pass). -/
theorem performCloudSync_guard (env : CloudEnv) (st : SyncState) :
    (st.isCloudSyncing = true →
      performCloudSync env st = (st, SyncOutcome.skippedInFlight)) ∧
    (st.isCloudSyncing = false →
      (performCloudSync env st).1.isCloudSyncing = false) ∧
    (st.isCloudSyncing = false → env.authenticated = true →
      env.cloudSyncEnabled = true → env.pushOk = false →
      performCloudSync env st = (st, SyncOutcome.pushFailed)) ∧
    (∀ (r : RemoteNote) (rest : List RemoteNote) (store : List SNote),
      r.deletedAt = none →
      env.decrypt r.contentEncrypted r.contentIV = none →
      mergeRemoteNotes env.decrypt store (r :: rest) =
        mergeRemoteNotes env.decrypt store rest) := by
  refine ⟨?_, ?_, ?_, ?_⟩
  · intro h
    rw [performCloudSync, if_pos h]
  · intro h
    rw [performCloudSync, if_neg (by rw [h]; exact Bool.false_ne_true)]
    by_cases ha : env.authenticated
    · rw [if_neg (by simp [ha])]
      by_cases hc : env.cloudSyncEnabled
      · rw [if_neg (by simp [hc])]
      · rw [if_pos (by simp [hc]), h]
    · rw [if_pos (by simp [ha]), h]
  · intro h ha hc hp
    cases st with
    | mk g notes colls last =>
      simp only at h
      subst h
      simp [performCloudSync, syncBody, ha, hc, hp]
  · intro r rest store hdel hdec
    rw [mergeRemoteNotes]
    have he : mergeRemoteNote env.decrypt store r = store := by
      simp [mergeRemoteNote, hdel, hdec]
    rw [he]

/-- Witness for C4's amended theorem at concrete inputs: a pass entered with
the guard up is a no-op; a pass with a failing push exits with the guard
down and state untouched; a record that fails to decrypt is skipped and the
loop continues. -/
theorem performCloudSync_guard_witness :
    (performCloudSync
        { authenticated := true, cloudSyncEnabled := true, pushOk := false,
          remoteNotes := [], remoteCollections := [], serverTime := 3,
          decrypt := fun _ _ => none }
        { isCloudSyncing := true, notes := [], collections := [],
          lastCloudSyncTime := none } =
      ({ isCloudSyncing := true, notes := [], collections := [],
          lastCloudSyncTime := none }, SyncOutcome.skippedInFlight)) ∧
    (performCloudSync
        { authenticated := true, cloudSyncEnabled := true, pushOk := false,
          remoteNotes := [], remoteCollections := [], serverTime := 3,
          decrypt := fun _ _ => none }
        { isCloudSyncing := false, notes := [], collections := [],
          lastCloudSyncTime := none } =
      ({ isCloudSyncing := false, notes := [], collections := [],
          lastCloudSyncTime := none }, SyncOutcome.pushFailed)) ∧
    (mergeRemoteNotes (fun _ _ => none) []
        [{ id := "x", userId := "u", title := "T", contentEncrypted := "c",
           contentIV := "i", date := 4, isPinned := false, createdAt := 1,
           updatedAt := 4 }] =
      mergeRemoteNotes (fun _ _ => none) [] []) :=
  ⟨(performCloudSync_guard
      { authenticated := true, cloudSyncEnabled := true, pushOk := false,
        remoteNotes := [], remoteCollections := [], serverTime := 3,
        decrypt := fun _ _ => none }
      { isCloudSyncing := true, notes := [], collections := [],
        lastCloudSyncTime := none }).1 rfl,
   (performCloudSync_guard
      { authenticated := true, cloudSyncEnabled := true, pushOk := false,
        remoteNotes := [], remoteCollections := [], serverTime := 3,
        decrypt := fun _ _ => none }
      { isCloudSyncing := false, notes := [], collections := [],
        lastCloudSyncTime := none }).2.2.1 rfl rfl rfl rfl,
   (performCloudSync_guard
      { authenticated := true, cloudSyncEnabled := true, pushOk := false,
        remoteNotes := [], remoteCollections := [], serverTime := 3,
        decrypt := fun _ _ => none }
      { isCloudSyncing := false, notes := [], collections := [],
        lastCloudSyncTime := none }).2.2.2
      { id := "x", userId := "u", title := "T", contentEncrypted := "c",
        contentIV := "i", date := 4, isPinned := false, createdAt := 1,
        updatedAt := 4 } [] [] rfl rfl⟩

/-- C9.  `syncDeleteToCloud` sends nothing exactly when cloud sync is
disabled, the session is unauthenticated, or no local record with the id
exists; when it does send, the payload is a tombstone for the still-present
local record (its `deletedAt` set to the current time). -/
theorem syncDeleteToCloud_guard (e a : Bool) (u : String) (store : List SNote)
    (noteId : String) (now : Millis) :
    (syncDeleteToCloud e a u store noteId now = none ↔
      (e = false ∨ a = false ∨ dbGet store noteId = none)) ∧
    (∀ n, dbGet store noteId = some n → e = true → a = true →
      syncDeleteToCloud e a u store noteId now =
        some { id := noteId, userId := u, title := n.title,
               contentEncrypted := "", contentIV := "", domain := n.domain,
               date := n.date, isPinned := false, collectionIds := some [],
               createdAt := now, updatedAt := now, deletedAt := some now }) := by
  constructor
  · cases e with
    | false => simp [syncDeleteToCloud]
    | true =>
      cases a with
      | false => simp [syncDeleteToCloud]
      | true =>
        cases hg : dbGet store noteId with
        | none => simp [syncDeleteToCloud, hg]
        | some n => simp [syncDeleteToCloud, hg]
  · intro n hg he ha
    subst he; subst ha
    simp [syncDeleteToCloud, hg]

/-- Witness for C9 at a concrete input: a present local record yields the
tombstone payload. -/
theorem syncDeleteToCloud_guard_witness :
    syncDeleteToCloud true true "u9"
        [{ id := "n9", title := "T9", content := "c", date := 42 }] "n9" 99 =
      some { id := "n9", userId := "u9", title := "T9", contentEncrypted := "",
             contentIV := "", domain := none, date := 42, isPinned := false,
             collectionIds := some [], createdAt := 99, updatedAt := 99,
             deletedAt := some 99 } :=
  (syncDeleteToCloud_guard true true "u9"
      [{ id := "n9", title := "T9", content := "c", date := 42 }] "n9" 99).2
    { id := "n9", title := "T9", content := "c", date := 42 } rfl rfl rfl

/-! ## DirectoryMirror: the markdown converter (`noteToMarkdown` /
`markdownToNote`)

The converter serializes a note as a YAML-style front-matter block followed
by the raw body, and parses such files back.  The parsing side of the source
delegates to the external `gray-matter` package; that parser is modelled
below (`matter`), line-based, restricted to the scalar forms this format
emits: empty scalars read as null, `true`/`false` as booleans,
double-quoted scalars are unquoted, and any other value is the trimmed rest
of the line (numeric and timestamp coercions of full YAML are not
modelled).  JavaScript strings are embedded as `String`, and the line/char
manipulation is written over `String.data` (`List Char`). -/

/-- Split a character list at every occurrence of the separator `c`
(the shape of `String.prototype.split`): always returns at least one
(possibly empty) segment. -/
def splitOnCharList (c : Char) : List Char → List (List Char)
  | [] => [[]]
  | a :: rest =>
    if a = c then [] :: splitOnCharList c rest
    else
      match splitOnCharList c rest with
      | [] => [[a]]
      | l :: ls => (a :: l) :: ls

/-- Join segments with a newline between each pair
(`Array.prototype.join('\n')` at the character level). -/
def joinWithNewlines : List (List Char) → List Char
  | [] => []
  | [x] => x
  | x :: xs => x ++ '\n' :: joinWithNewlines xs

/-- `String.prototype.trim()`: strip leading and trailing whitespace. -/
def jsTrim (s : String) : String :=
  String.mk
    (((s.data.dropWhile Char.isWhitespace).reverse.dropWhile
        Char.isWhitespace).reverse)

/-- A parsed YAML scalar as JavaScript sees it: null, boolean, or string. -/
inductive YamlValue where
  | vnull
  | vbool (b : Bool)
  | vstr (s : String)
deriving DecidableEq, Repr

/-- JavaScript truthiness of a parsed scalar (`null`, `false` and the empty
string are falsy). -/
def truthy : YamlValue → Bool
  | .vnull => false
  | .vbool b => b
  | .vstr s => s != ""

/-- The string content of a scalar, for the positions where the embedding
needs a `String` (the source lets the untyped value flow; the claims proved
here are restricted to string-valued scalars, where this is exact). -/
def jsString : YamlValue → String
  | .vnull => "null"
  | .vbool true => "true"
  | .vbool false => "false"
  | .vstr s => s

/-- Modelled from the spec: the scalar layer of the external YAML parser
used by `gray-matter` (spec §6 describes the header as a structured text
block).  Empty values read as null, the literals `true`/`false` as
booleans, double-quoted values are unquoted and unescaped, anything else is
the trimmed raw text. -/
def parseScalar (s : String) : YamlValue :=
  let t := jsTrim s
  if t = "" then .vnull
  else if t = "true" then .vbool true
  else if t = "false" then .vbool false
  else
    match t.data with
    | '"' :: rest =>
      if rest.getLast? == some '"' then
        .vstr ((String.mk rest.dropLast).replace "\\\"" "\"")
      else .vstr t
    | _ => .vstr t

/-- Split a front-matter line at the first `": "` into key and raw value. -/
def breakKeyValue : List Char → Option (List Char × List Char)
  | [] => none
  | ':' :: ' ' :: rest => some ([], rest)
  | a :: rest => (breakKeyValue rest).map (fun kv => (a :: kv.1, kv.2))

/-- Parse one front-matter line into a (key, scalar) pair, if it has the
`key: value` shape. -/
def parseLineChars (l : List Char) : Option (String × YamlValue) :=
  (breakKeyValue l).map (fun kv => (String.mk kv.1, parseScalar (String.mk kv.2)))

/-- The parsed front-matter block and remaining content. -/
structure MatterResult where
  data : List (String × YamlValue)
  content : String
deriving Repr

/-- Modelled from the spec: the external `gray-matter` front-matter parser.
If the document starts with a `---` line and a later `---` line closes the
block, the lines between are parsed as `key: value` pairs and the content
is everything after the closing delimiter line; otherwise the whole
document is content with no data. -/
def matter (markdown : String) : MatterResult :=
  match splitOnCharList '\n' markdown.data with
  | [] => ⟨[], markdown⟩
  | first :: rest =>
    if first = "---".data then
      match rest.findIdx? (fun l => l == "---".data) with
      | some i =>
        ⟨(rest.take i).filterMap parseLineChars,
         String.mk (joinWithNewlines (rest.drop (i + 1)))⟩
      | none => ⟨[], markdown⟩
    else ⟨[], markdown⟩

/-- Property access `data.key` on the parsed front matter (a missing key is
falsy, like `undefined`). -/
def lookupData (data : List (String × YamlValue)) (key : String) : YamlValue :=
  match data.find? (fun kv => kv.1 == key) with
  | some kv => kv.2
  | none => .vnull

/-- `value.includes(c)` for a single character. -/
def includesChar (s : String) (c : Char) : Bool :=
  s.data.contains c

/-- `escapeYamlValue`: wrap values containing `':'`, `'#'`, a newline or a
double quote in double quotes, escaping inner quotes. -/
def escapeYamlValue (value : String) : String :=
  if includesChar value ':' || includesChar value '#' ||
      includesChar value '\n' || includesChar value '"' then
    "\"" ++ value.replace "\"" "\\\"" ++ "\""
  else value

/-- `Array.prototype.join(sep)`. -/
def joinStrings (sep : String) : List String → String
  | [] => ""
  | [x] => x
  | x :: xs => x ++ sep ++ joinStrings sep xs

/-- `noteToMarkdown`: the manually constructed front-matter block (title,
date, collection, pinned, id, `encrypted: false`) joined with newlines,
then a blank line, then the raw body. -/
def noteToMarkdown (note : Note) : String :=
  let frontmatterLines : List String :=
    ["---",
     "title: " ++ escapeYamlValue note.title,
     "date: " ++ note.date,
     "collection: " ++ note.collectionId.getD "",
     "pinned: " ++ (if note.isPinned.getD false then "true" else "false"),
     "id: " ++ note.id,
     "encrypted: false",
     "---"]
  joinStrings "\n" frontmatterLines ++ "\n\n" ++ note.content

/-- `String.prototype.replace(pat, repl)` with a plain-string pattern:
replaces the first occurrence only. -/
def replaceFirst (s pat repl : String) : String :=
  match s.splitOn pat with
  | [] => s
  | [_] => s
  | x :: rest => x ++ repl ++ String.intercalate pat rest

/-- `content.split('\n')[0]`. -/
def firstLineOf (s : String) : String :=
  String.mk (s.data.takeWhile (fun c => c ≠ '\n'))

/-- `firstLine.replace(/^#+\s*\x7b0,1\x7d/ ...)`: strip the leading run of
`'#'` characters and the whitespace after it. -/
def stripHash (s : String) : String :=
  String.mk ((s.data.dropWhile (fun c => c = '#')).dropWhile Char.isWhitespace)

/-- `markdownToNote(filename, markdown)`.  The clock reads used by the
fallback paths (`Date.now()` in the generated id, the current ISO string in
the date default) are passed explicitly as `now` and `nowIso`. -/
def markdownToNote (filename markdown : String) (now : Nat) (nowIso : String) :
    Note :=
  let parsed := matter markdown
  let data := parsed.data
  let content := parsed.content
  let cleanFilename := replaceFirst filename ".md" ""
  let idVal := lookupData data "id"
  let id := if truthy idVal then jsString idVal
            else "imported-" ++ cleanFilename ++ "-" ++ toString now
  let titleVal := lookupData data "title"
  let titleBase := if truthy titleVal then jsString titleVal else cleanFilename
  let title :=
    if !(truthy titleVal) && content != "" then
      let firstLine := jsTrim (firstLineOf content)
      if firstLine.startsWith "#" then stripHash firstLine else titleBase
    else titleBase
  let dateVal := lookupData data "date"
  let collVal := lookupData data "collection"
  let pinnedVal := lookupData data "pinned"
  { id := id
    title := title
    content := jsTrim content
    date := if truthy dateVal then jsString dateVal else nowIso
    collectionId := if truthy collVal then some (jsString collVal) else none
    collectionIds := none
    isPinned := some (truthy pinnedVal) }

/-- The run-collapsing pass of `sanitizeFilename`
(`.replace(/\s+\x7b0,1\x7d/g, ' ')` — each maximal whitespace run becomes one
space); the flag records whether the previous character was part of a run. -/
def collapseWs : Bool → List Char → List Char
  | _, [] => []
  | inRun, c :: rest =>
    if Char.isWhitespace c then
      if inRun then collapseWs true rest else ' ' :: collapseWs true rest
    else c :: collapseWs false rest

/-- `sanitizeFilename`: drop the filesystem-invalid characters, collapse
whitespace runs, trim, and cap at 200 characters. -/
def sanitizeFilename (title : String) : String :=
  let invalid : List Char := ['<', '>', ':', '"', '/', '\\', '|', '?', '*']
  String.mk
    ((jsTrim (String.mk (collapseWs false
        (title.data.filter (fun c => !(invalid.contains c)))))).data.take 200)

/-- `getFilenameForNote`: the sanitized title plus the `.md` extension. -/
def getFilenameForNote (note : Note) : String :=
  sanitizeFilename note.title ++ ".md"

/-! ### Lemmas about the line structure of the mirror format -/

theorem splitOnCharList_append (c : Char) (xs ys : List Char) (h : c ∉ xs) :
    splitOnCharList c (xs ++ c :: ys) = xs :: splitOnCharList c ys := by
  induction xs with
  | nil => simp [splitOnCharList]
  | cons a xs ih =>
    have ha : a ≠ c := fun hh => h (hh ▸ List.mem_cons_self a xs)
    have hx : c ∉ xs := fun hh => h (List.mem_cons_of_mem a hh)
    simp only [List.cons_append, splitOnCharList, if_neg ha, List.append_eq]
    rw [ih hx]

theorem splitOnCharList_ne_nil (c : Char) (l : List Char) :
    splitOnCharList c l ≠ [] := by
  cases l with
  | nil => simp [splitOnCharList]
  | cons a rest =>
    rw [splitOnCharList]
    by_cases ha : a = c
    · simp [ha]
    · rw [if_neg ha]
      cases hs : splitOnCharList c rest with
      | nil => simp
      | cons x xs => simp

theorem joinWithNewlines_splitOnCharList (l : List Char) :
    joinWithNewlines (splitOnCharList '\n' l) = l := by
  induction l with
  | nil => rfl
  | cons a rest ih =>
    rw [splitOnCharList]
    by_cases ha : a = '\n'
    · rw [if_pos ha]
      cases hs : splitOnCharList '\n' rest with
      | nil => exact absurd hs (splitOnCharList_ne_nil _ _)
      | cons x xs =>
        rw [← hs]
        show joinWithNewlines ([] :: splitOnCharList '\n' rest) = a :: rest
        rw [hs]
        show [] ++ '\n' :: joinWithNewlines (x :: xs) = a :: rest
        rw [← hs, ih, ha]
        rfl
    · rw [if_neg ha]
      cases hs : splitOnCharList '\n' rest with
      | nil => exact absurd hs (splitOnCharList_ne_nil _ _)
      | cons x xs =>
        rw [← ih]
        rw [hs]
        cases xs with
        | nil => rfl
        | cons y ys => rfl

theorem data_noteToMarkdown (note : Note) :
    (noteToMarkdown note).data =
      "---".data ++ '\n' ::
      (("title: ".data ++ (escapeYamlValue note.title).data) ++ '\n' ::
      (("date: ".data ++ note.date.data) ++ '\n' ::
      (("collection: ".data ++ (note.collectionId.getD "").data) ++ '\n' ::
      (("pinned: ".data ++
          (if note.isPinned.getD false then "true" else "false").data) ++ '\n' ::
      (("id: ".data ++ note.id.data) ++ '\n' ::
      ("encrypted: false".data ++ '\n' ::
      ("---".data ++ '\n' :: '\n' :: note.content.data))))))) := by
  simp [noteToMarkdown, joinStrings, String.data_append]

theorem escapeYamlValue_eq_self (s : String)
    (h1 : ':' ∉ s.data) (h2 : '#' ∉ s.data) (h3 : '\n' ∉ s.data)
    (h4 : '"' ∉ s.data) :
    escapeYamlValue s = s := by
  rw [escapeYamlValue]
  have e1 : includesChar s ':' = false := by simpa [includesChar] using h1
  have e2 : includesChar s '#' = false := by simpa [includesChar] using h2
  have e3 : includesChar s '\n' = false := by simpa [includesChar] using h3
  have e4 : includesChar s '"' = false := by simpa [includesChar] using h4
  simp [e1, e2, e3, e4]

theorem lines_noteToMarkdown (note : Note)
    (ht : '\n' ∉ note.title.data)
    (ht1 : ':' ∉ note.title.data) (ht2 : '#' ∉ note.title.data)
    (ht3 : '"' ∉ note.title.data)
    (hd : '\n' ∉ note.date.data)
    (hc : '\n' ∉ (note.collectionId.getD "").data)
    (hi : '\n' ∉ note.id.data) :
    splitOnCharList '\n' (noteToMarkdown note).data =
      "---".data ::
      ("title: ".data ++ note.title.data) ::
      ("date: ".data ++ note.date.data) ::
      ("collection: ".data ++ (note.collectionId.getD "").data) ::
      ("pinned: ".data ++
        (if note.isPinned.getD false then "true" else "false").data) ::
      ("id: ".data ++ note.id.data) ::
      "encrypted: false".data ::
      "---".data ::
      [] :: splitOnCharList '\n' note.content.data := by
  rw [data_noteToMarkdown, escapeYamlValue_eq_self note.title ht1 ht2 ht ht3]
  have hlit : ∀ (p : String) (v : List Char), '\n' ∉ p.data → '\n' ∉ v →
      '\n' ∉ p.data ++ v := by
    intro p v hp hv h
    rcases List.mem_append.mp h with h | h
    · exact hp h
    · exact hv h
  rw [splitOnCharList_append _ _ _ (by decide)]
  rw [splitOnCharList_append _ _ _ (hlit "title: " _ (by decide) ht)]
  rw [splitOnCharList_append _ _ _ (hlit "date: " _ (by decide) hd)]
  rw [splitOnCharList_append _ _ _ (hlit "collection: " _ (by decide) hc)]
  rw [splitOnCharList_append _ _ _ (hlit "pinned: " _ (by decide)
    (by cases hp : note.isPinned.getD false <;> simp [hp]))]
  rw [splitOnCharList_append _ _ _ (hlit "id: " _ (by decide) hi)]
  rw [splitOnCharList_append _ _ _ (by decide)]
  rw [splitOnCharList_append _ _ _ (by decide)]
  rfl

theorem matter_noteToMarkdown (note : Note)
    (ht : '\n' ∉ note.title.data)
    (ht1 : ':' ∉ note.title.data) (ht2 : '#' ∉ note.title.data)
    (ht3 : '"' ∉ note.title.data)
    (hd : '\n' ∉ note.date.data)
    (hc : '\n' ∉ (note.collectionId.getD "").data)
    (hi : '\n' ∉ note.id.data) :
    matter (noteToMarkdown note) =
      ⟨[("title", parseScalar note.title),
        ("date", parseScalar note.date),
        ("collection", parseScalar (note.collectionId.getD "")),
        ("pinned", parseScalar
          (if note.isPinned.getD false then "true" else "false")),
        ("id", parseScalar note.id),
        ("encrypted", parseScalar "false")],
       String.mk ('\n' :: note.content.data)⟩ := by
  rw [matter, lines_noteToMarkdown note ht ht1 ht2 ht3 hd hc hi]
  have hne : ∀ (a : Char) (p : List Char) (v : List Char), a ≠ '-' →
      ((a :: p ++ v : List Char) == "---".data) = false := by
    intro a p v ha
    apply beq_eq_false_iff_ne.mpr
    intro h
    injection h with h1 _
    exact ha h1
  simp only [List.findIdx?_cons]
  rw [show (("title: ".data ++ note.title.data) == "---".data) = false from
    hne 't' _ _ (by decide)]
  rw [show (("date: ".data ++ note.date.data) == "---".data) = false from
    hne 'd' _ _ (by decide)]
  rw [show (("collection: ".data ++ (note.collectionId.getD "").data) ==
      "---".data) = false from hne 'c' _ _ (by decide)]
  rw [show (("pinned: ".data ++
      (if note.isPinned.getD false then "true" else "false").data) ==
      "---".data) = false from hne 'p' _ _ (by decide)]
  rw [show (("id: ".data ++ note.id.data) == "---".data) = false from
    hne 'i' _ _ (by decide)]
  simp only [show ("encrypted: false".data == "---".data) = false by decide,
    show ("---".data == "---".data) = true by decide]
  norm_num
  constructor
  · have h1 : parseLineChars
        ('t' :: 'i' :: 't' :: 'l' :: 'e' :: ':' :: ' ' :: note.title.data) =
        some ("title", parseScalar note.title) := rfl
    have h2 : parseLineChars
        ('d' :: 'a' :: 't' :: 'e' :: ':' :: ' ' :: note.date.data) =
        some ("date", parseScalar note.date) := rfl
    have h3 : parseLineChars
        ('c' :: 'o' :: 'l' :: 'l' :: 'e' :: 'c' :: 't' :: 'i' :: 'o' :: 'n' ::
          ':' :: ' ' :: (note.collectionId.getD "").data) =
        some ("collection", parseScalar (note.collectionId.getD "")) := rfl
    have h4 : parseLineChars
        ('p' :: 'i' :: 'n' :: 'n' :: 'e' :: 'd' :: ':' :: ' ' ::
          (if note.isPinned.getD false then "true" else "false").data) =
        some ("pinned", parseScalar
          (if note.isPinned.getD false then "true" else "false")) := by
      cases hp : note.isPinned.getD false <;> rfl
    have h5 : parseLineChars ('i' :: 'd' :: ':' :: ' ' :: note.id.data) =
        some ("id", parseScalar note.id) := rfl
    have h6 : parseLineChars
        ['e', 'n', 'c', 'r', 'y', 'p', 't', 'e', 'd', ':', ' ', 'f', 'a',
         'l', 's', 'e'] = some ("encrypted", parseScalar "false") := rfl
    simp [List.filterMap_cons, h1, h2, h3, h4, h5, h6]
  · cases hs : splitOnCharList '\n' note.content.data with
    | nil => exact absurd hs (splitOnCharList_ne_nil _ _)
    | cons x xs =>
      rw [show joinWithNewlines ([] :: x :: xs) =
        '\n' :: joinWithNewlines (x :: xs) from rfl]
      rw [← hs, joinWithNewlines_splitOnCharList]

/-- C10 counterexample.  The claim quantifies over every note whose title
contains none of `':'`, `'#'`, `'"'` or a newline, but a title with leading
whitespace — here `" x"`, which contains none of those characters — is
trimmed by the YAML scalar layer on re-parse, so the recovered title is
`"x"`, not `" x"`. -/
theorem mirror_roundtrip_claim_false :
    (':' ∉ (" x" : String).data ∧ '#' ∉ (" x" : String).data ∧
     '"' ∉ (" x" : String).data ∧ '\n' ∉ (" x" : String).data) ∧
    (markdownToNote
        (getFilenameForNote
          { id := "n1", title := " x", content := "body", date := "d" })
        (noteToMarkdown
          { id := "n1", title := " x", content := "body", date := "d" })
        0 "iso").title ≠
      (" x" : String) := by
  constructor
  · decide
  · decide

/-- C10 amended.  Mirror file round-trip: for every note whose `title`,
`id`, `date` and (when present) collection id are newline-free strings that
the YAML scalar layer parses back as themselves (nonempty, trim-invariant,
not the literals `true`/`false`), with the title additionally free of
`':'`, `'#'` and `'"'`, `markdownToNote (filename, noteToMarkdown note)`
recovers the same id, title, date and collection id (an absent collection
maps back to absent), recovers the effective pinned flag (an absent flag
maps back to an explicit `false`), and recovers the body content up to
trimming of leading and trailing whitespace. -/
theorem mirror_roundtrip (note : Note) (now : Nat) (nowIso : String)
    (ht1 : ':' ∉ note.title.data) (ht2 : '#' ∉ note.title.data)
    (ht3 : '"' ∉ note.title.data) (ht : '\n' ∉ note.title.data)
    (htitle : parseScalar note.title = .vstr note.title)
    (hid : parseScalar note.id = .vstr note.id) (hi : '\n' ∉ note.id.data)
    (hdate : parseScalar note.date = .vstr note.date)
    (hd : '\n' ∉ note.date.data)
    (hcoll : ∀ c ∈ note.collectionId, parseScalar c = .vstr c ∧ '\n' ∉ c.data) :
    markdownToNote (getFilenameForNote note) (noteToMarkdown note) now nowIso =
      { id := note.id, title := note.title, content := jsTrim note.content,
        domain := none, date := note.date, collectionId := note.collectionId,
        collectionIds := none, isPinned := some (note.isPinned.getD false) } := by
  have hc : '\n' ∉ (note.collectionId.getD "").data := by
    cases hcol : note.collectionId with
    | none => simp
    | some c => exact (hcoll c (by rw [hcol]; rfl)).2
  have hm := matter_noteToMarkdown note ht ht1 ht2 ht3 hd hc hi
  have hTne : note.title ≠ "" := by
    intro h; rw [h] at htitle; exact absurd htitle (by decide)
  have hIne : note.id ≠ "" := by
    intro h; rw [h] at hid; exact absurd hid (by decide)
  have hDne : note.date ≠ "" := by
    intro h; rw [h] at hdate; exact absurd hdate (by decide)
  have hpv : parseScalar
      (if note.isPinned.getD false then "true" else "false") =
      .vbool (note.isPinned.getD false) := by
    cases hp : note.isPinned.getD false <;> rfl
  rw [markdownToNote, hm, htitle, hid, hdate, hpv]
  cases hcol : note.collectionId with
  | none =>
    simp [lookupData, truthy, jsString, hTne, hIne, hDne]
    exact ⟨rfl, by decide⟩
  | some c =>
    have hcs := (hcoll c (by rw [hcol]; rfl)).1
    have hCne : c ≠ "" := by
      intro h; rw [h] at hcs; exact absurd hcs (by decide)
    simp [lookupData, truthy, jsString, hTne, hIne, hDne, hcs, hCne]
    rfl

/-- Witness for C10's amended theorem at a concrete note (plain title,
present collection, pinned, content with surrounding whitespace). -/
theorem mirror_roundtrip_witness :
    markdownToNote
        (getFilenameForNote
          { id := "n1", title := "My Note", content := " body ",
            date := "2024-01-02", collectionId := some "c1",
            isPinned := some true })
        (noteToMarkdown
          { id := "n1", title := "My Note", content := " body ",
            date := "2024-01-02", collectionId := some "c1",
            isPinned := some true })
        0 "iso" =
      { id := "n1", title := "My Note", content := jsTrim " body ",
        domain := none, date := "2024-01-02", collectionId := some "c1",
        collectionIds := none, isPinned := some true } :=
  mirror_roundtrip
    { id := "n1", title := "My Note", content := " body ",
      date := "2024-01-02", collectionId := some "c1", isPinned := some true }
    0 "iso" (by decide) (by decide) (by decide) (by decide) (by decide)
    (by decide) (by decide) (by decide) (by decide)
    (by
      intro c hc
      rw [Option.mem_def] at hc
      injection hc with h
      subst h
      exact ⟨by decide, by decide⟩)

/-! ## Debounced mirror writes (`syncNoteToFile`)

`syncNoteToFile` clears any pending timer for the note's id and schedules a
fresh write of the note it was passed, `DEBOUNCE_DELAY` (300 ms) later.  The
timer map and the event loop are modelled explicitly: a `call` event is an
invocation of `syncNoteToFile` at a given clock reading, and a `fire` event
is the event loop running every timer whose deadline has passed, appending
the serialized note (`writeNoteToFile`, i.e. `noteToMarkdown`) to a write
log. -/

/-- The fixed debounce delay of `syncManager.ts`. -/
def DEBOUNCE_DELAY : Nat := 300

/-- The mirror-sync state touched by `syncNoteToFile`: whether a directory
handle is present, the pending-write timer map (note id, captured note,
deadline), and the log of completed file writes (note id, file content). -/
structure MirrorState where
  dirHandleReady : Bool
  pendingWrites : List (String × Note × Nat)
  writeLog : List (String × String)
deriving DecidableEq, Repr

/-- An event: `call t note` is `syncNoteToFile(note)` at clock reading `t`;
`fire t` is the event loop running every timer due at or before `t`. -/
inductive MirrorEvent where
  | call (t : Nat) (note : Note)
  | fire (t : Nat)
deriving DecidableEq, Repr

/-- One event.  A `call` with no directory handle is a no-op; otherwise it
cancels the pending write for that note id (`clearTimeout`) and schedules a
new one at `t + DEBOUNCE_DELAY` capturing the note passed to this call.  A
`fire` moves every due entry to the write log, serialized with
`noteToMarkdown`. -/
def mirrorStep (st : MirrorState) : MirrorEvent → MirrorState
  | .call t note =>
    if !st.dirHandleReady then st
    else
      { st with
          pendingWrites :=
            (note.id, note, t + DEBOUNCE_DELAY) ::
              st.pendingWrites.filter (fun e => !(e.1 == note.id)) }
  | .fire t =>
    { st with
        pendingWrites := st.pendingWrites.filter (fun e => !(e.2.2 ≤ t : Bool)),
        writeLog :=
          st.writeLog ++
            (st.pendingWrites.filter (fun e => (e.2.2 ≤ t : Bool))).map
              (fun e => (e.1, noteToMarkdown e.2.1)) }

/-- Run a sequence of events. -/
def mirrorRun (st : MirrorState) : List MirrorEvent → MirrorState
  | [] => st
  | e :: rest => mirrorRun (mirrorStep st e) rest

/-- A burst continuation for note id `id`: given that the last call so far
was `syncNoteToFile(n)` at time `t`, the events are further calls for the
same id and event-loop passes, all strictly inside the debounce window of
the preceding call (timestamps nondecreasing), ending with a last call of
`nf` at `tf`. -/
inductive Burst (id : String) : Note → Nat → List MirrorEvent → Note → Nat → Prop where
  | nil : ∀ {n : Note} {t : Nat}, Burst id n t [] n t
  | fire : ∀ {n : Note} {t u : Nat} {evs : List MirrorEvent} {nf : Note}
      {tf : Nat}, t ≤ u → u < t + DEBOUNCE_DELAY →
      Burst id n t evs nf tf →
      Burst id n t (.fire u :: evs) nf tf
  | call : ∀ {n : Note} {t : Nat} {n' : Note} {t' : Nat}
      {evs : List MirrorEvent} {nf : Note} {tf : Nat},
      t ≤ t' → t' < t + DEBOUNCE_DELAY →
      n'.id = id →
      Burst id n' t' evs nf tf →
      Burst id n t (.call t' n' :: evs) nf tf

/-- Running a burst continuation from a state whose only pending write is
the preceding call's leaves exactly the last call's write pending, and
writes nothing. -/
theorem mirrorRun_burst (id : String) {n : Note} {t : Nat}
    {evs : List MirrorEvent} {nf : Note} {tf : Nat}
    (hb : Burst id n t evs nf tf) (hn : n.id = id) (L : List (String × String)) :
    mirrorRun
        { dirHandleReady := true,
          pendingWrites := [(id, n, t + DEBOUNCE_DELAY)], writeLog := L } evs =
      { dirHandleReady := true,
        pendingWrites := [(id, nf, tf + DEBOUNCE_DELAY)], writeLog := L } := by
  induction hb with
  | nil => rfl
  | @fire n t u evs nf tf hu1 hu2 _ ih =>
    rw [mirrorRun]
    have hdue : (decide (t + DEBOUNCE_DELAY ≤ u)) = false := by
      simp; omega
    simp only [mirrorStep, List.filter, hdue, Bool.not_false, List.map_nil,
      List.append_nil]
    exact ih hn
  | @call n t n' t' evs nf tf ht1 ht2 hid _ ih =>
    rw [mirrorRun]
    have hsk : ((id, n, t + DEBOUNCE_DELAY).1 == n'.id) = true := by
      simp [hid]
    simp only [mirrorStep, Bool.not_true, List.filter, hsk, if_neg]
    simp only [Bool.false_eq_true, if_false]
    rw [hid]
    exact ih hid

/-- C8.  Debounce coalescing: a burst of calls to `syncNoteToFile` for one
note id — each within the debounce window (300 ms) of the previous one,
with any number of event-loop passes interleaved — followed by an
event-loop pass after the last window expires, produces exactly one file
write, whose content is the serialization of the note passed to the last
call; each newer call cancels the pending write scheduled by the previous
one, so at every point at most the most recent call's write is pending. -/
theorem syncNoteToFile_debounce (id : String) (n1 : Note) (t1 : Nat)
    (evs : List MirrorEvent) (nf : Note) (tf : Nat) (T : Nat)
    (L : List (String × String))
    (h1 : n1.id = id) (hb : Burst id n1 t1 evs nf tf)
    (hT : tf + DEBOUNCE_DELAY ≤ T) :
    mirrorRun { dirHandleReady := true, pendingWrites := [], writeLog := L }
        (MirrorEvent.call t1 n1 :: (evs ++ [MirrorEvent.fire T])) =
      { dirHandleReady := true, pendingWrites := [],
        writeLog := L ++ [(id, noteToMarkdown nf)] } := by
  rw [mirrorRun]
  have hfirst : mirrorStep
      { dirHandleReady := true, pendingWrites := [], writeLog := L }
      (MirrorEvent.call t1 n1) =
      { dirHandleReady := true,
        pendingWrites := [(id, n1, t1 + DEBOUNCE_DELAY)], writeLog := L } := by
    simp [mirrorStep, h1]
  rw [hfirst]
  have hruns : ∀ (st : MirrorState) (l1 l2 : List MirrorEvent),
      mirrorRun st (l1 ++ l2) = mirrorRun (mirrorRun st l1) l2 := by
    intro st l1
    induction l1 generalizing st with
    | nil => intro l2; rfl
    | cons e rest ih => intro l2; rw [List.cons_append, mirrorRun, mirrorRun]; exact ih _ _
  rw [hruns, mirrorRun_burst id hb h1 L]
  have hdue : (decide (tf + DEBOUNCE_DELAY ≤ T)) = true := by
    simpa using hT
  rw [mirrorRun, mirrorRun]
  simp [mirrorStep, hdue]

/-- Witness for C8: three calls for the same note at times 0, 100 and 200
(each inside the previous window), an event-loop pass at 250 that flushes
nothing, and a final pass at 600 — one write, with the third note's
serialization. -/
theorem syncNoteToFile_debounce_witness :
    mirrorRun { dirHandleReady := true, pendingWrites := [], writeLog := [] }
        (MirrorEvent.call 0 { id := "n", title := "a", content := "1", date := "d" } ::
          ([MirrorEvent.fire 50,
            MirrorEvent.call 100 { id := "n", title := "a", content := "2", date := "d" },
            MirrorEvent.call 200 { id := "n", title := "a", content := "3", date := "d" },
            MirrorEvent.fire 250] ++ [MirrorEvent.fire 600])) =
      { dirHandleReady := true, pendingWrites := [],
        writeLog := [("n", noteToMarkdown
          { id := "n", title := "a", content := "3", date := "d" })] } :=
  syncNoteToFile_debounce "n"
    { id := "n", title := "a", content := "1", date := "d" } 0
    [MirrorEvent.fire 50,
     MirrorEvent.call 100 { id := "n", title := "a", content := "2", date := "d" },
     MirrorEvent.call 200 { id := "n", title := "a", content := "3", date := "d" },
     MirrorEvent.fire 250]
    { id := "n", title := "a", content := "3", date := "d" } 200 600 []
    rfl
    (Burst.fire (by decide) (by decide)
      (Burst.call (by decide) (by decide) rfl
        (Burst.call (by decide) (by decide) rfl
          (Burst.fire (by decide) (by decide) Burst.nil))))
    (by decide)

/-! ## EncryptionEngine (`encryption.ts`)

`encrypt` and `decrypt` compose four layers: UTF-8 encoding
(`TextEncoder`/`TextDecoder`), the AES-GCM AEAD of the Web Crypto API, and
base64 framing (`btoa`/`atob`).  The UTF-8 and base64 layers are modelled
in full; the AES-GCM primitive is external to the repository and is
modelled from the spec (authenticated encryption: a keystream XOR plus an
appended authentication tag checked on decryption), with a concrete
pseudorandom byte function standing in for the AES block computation — the
properties proved below depend only on the AEAD structure.  Byte strings
are `List Nat` with entries `< 256`. -/

def utf8EncodeCodepoint (n : Nat) : List Nat :=
  if n < 0x80 then [n]
  else if n < 0x800 then [0xC0 + n / 64, 0x80 + n % 64]
  else if n < 0x10000 then
    [0xE0 + n / 4096, 0x80 + (n / 64) % 64, 0x80 + n % 64]
  else
    [0xF0 + n / 262144, 0x80 + (n / 4096) % 64, 0x80 + (n / 64) % 64,
     0x80 + n % 64]

def utf8EncodeChar (c : Char) : List Nat :=
  utf8EncodeCodepoint c.toNat

def utf8EncodeList : List Char → List Nat
  | [] => []
  | c :: rest => utf8EncodeChar c ++ utf8EncodeList rest

/-- Is `b` a UTF-8 continuation byte? -/
def contB (b : Nat) : Bool :=
  decide (0x80 ≤ b) && decide (b < 0xC0)

/-- One fuel unit is spent per decoded character; `utf8DecodeList` supplies
the byte count as fuel, which always suffices. -/
def utf8DecodeGo : Nat → List Nat → Option (List Char)
  | _, [] => some []
  | 0, _ :: _ => none
  | fuel + 1, b :: rest =>
    if b < 0x80 then
      (utf8DecodeGo fuel rest).map (fun cs => Char.ofNat b :: cs)
    else if b < 0xE0 then
      let b1 := rest.getD 0 0xFFFF
      if 0xC0 ≤ b ∧ contB b1 then
        let n := (b - 0xC0) * 64 + (b1 - 0x80)
        if 0x80 ≤ n then
          (utf8DecodeGo fuel (rest.drop 1)).map (fun cs => Char.ofNat n :: cs)
        else none
      else none
    else if b < 0xF0 then
      let b1 := rest.getD 0 0xFFFF
      let b2 := rest.getD 1 0xFFFF
      if contB b1 ∧ contB b2 then
        let n := (b - 0xE0) * 4096 + (b1 - 0x80) * 64 + (b2 - 0x80)
        if 0x800 ≤ n ∧ ¬ (0xD800 ≤ n ∧ n < 0xE000) then
          (utf8DecodeGo fuel (rest.drop 2)).map (fun cs => Char.ofNat n :: cs)
        else none
      else none
    else if b < 0xF8 then
      let b1 := rest.getD 0 0xFFFF
      let b2 := rest.getD 1 0xFFFF
      let b3 := rest.getD 2 0xFFFF
      if (contB b1 ∧ contB b2) ∧ contB b3 then
        let n := (b - 0xF0) * 262144 + (b1 - 0x80) * 4096 +
          (b2 - 0x80) * 64 + (b3 - 0x80)
        if 0x10000 ≤ n ∧ n < 0x110000 then
          (utf8DecodeGo fuel (rest.drop 3)).map (fun cs => Char.ofNat n :: cs)
        else none
      else none
    else none

def utf8DecodeList (l : List Nat) : Option (List Char) :=
  utf8DecodeGo l.length l

theorem utf8DecodeGo_encodeChar (c : Char) (rest : List Nat) (fuel : Nat) :
    utf8DecodeGo (fuel + 1) (utf8EncodeChar c ++ rest) =
      (utf8DecodeGo fuel rest).map (fun cs => c :: cs) := by
  have hval := c.valid
  have htn : c.toNat = c.val.toNat := rfl
  rw [utf8EncodeChar, utf8EncodeCodepoint]
  by_cases hc1 : c.toNat < 0x80
  · rw [if_pos hc1]
    rw [show ([c.toNat] ++ rest : List Nat) = c.toNat :: rest from rfl,
      utf8DecodeGo]
    rw [if_pos hc1, Char.ofNat_toNat]
  · rw [if_neg hc1]
    by_cases hc2 : c.toNat < 0x800
    · rw [if_pos hc2]
      rw [show ([0xC0 + c.toNat / 64, 0x80 + c.toNat % 64] ++ rest : List Nat) =
        (0xC0 + c.toNat / 64) :: (0x80 + c.toNat % 64) :: rest from rfl,
        utf8DecodeGo]
      have hdm := Nat.div_add_mod c.toNat 64
      have hm1 : c.toNat % 64 < 64 := Nat.mod_lt _ (by omega)
      have hd1 : c.toNat / 64 < 32 := by omega
      rw [if_neg (by omega), if_pos (by omega)]
      simp only [List.getD_cons_zero, List.drop_succ_cons, List.drop_zero]
      rw [if_pos (by refine ⟨by omega, ?_⟩; simp [contB]; omega)]
      rw [if_pos (by omega)]
      have : (0xC0 + c.toNat / 64 - 0xC0) * 64 + (0x80 + c.toNat % 64 - 0x80) =
          c.toNat := by omega
      rw [this, Char.ofNat_toNat]
    · rw [if_neg hc2]
      by_cases hc3 : c.toNat < 0x10000
      · rw [if_pos hc3]
        have hsur : c.toNat < 0xD800 ∨ 0xDFFF < c.toNat := by
          rcases hval with h | ⟨h1, h2⟩
          · left; omega
          · right; omega
        rw [show ([0xE0 + c.toNat / 4096, 0x80 + (c.toNat / 64) % 64,
            0x80 + c.toNat % 64] ++ rest : List Nat) =
          (0xE0 + c.toNat / 4096) :: (0x80 + (c.toNat / 64) % 64) ::
            (0x80 + c.toNat % 64) :: rest from rfl, utf8DecodeGo]
        have hdm := Nat.div_add_mod c.toNat 64
        have hdm2 := Nat.div_add_mod (c.toNat / 64) 64
        have hdd : c.toNat / 64 / 64 = c.toNat / 4096 := by
          rw [Nat.div_div_eq_div_mul]
        have hm1 : c.toNat % 64 < 64 := Nat.mod_lt _ (by omega)
        have hm2 : (c.toNat / 64) % 64 < 64 := Nat.mod_lt _ (by omega)
        have hd1 : c.toNat / 4096 < 16 := by
          rw [← hdd]; omega
        rw [if_neg (by omega), if_neg (by omega), if_pos (by omega)]
        simp only [List.getD_cons_zero, List.getD_cons_succ,
          List.drop_succ_cons, List.drop_zero]
        rw [if_pos (by refine ⟨?_, ?_⟩ <;> (simp [contB]; omega))]
        have hrec : (0xE0 + c.toNat / 4096 - 0xE0) * 4096 +
            (0x80 + (c.toNat / 64) % 64 - 0x80) * 64 +
            (0x80 + c.toNat % 64 - 0x80) = c.toNat := by
          rw [← hdd]
          omega
        rw [hrec]
        rw [if_pos (⟨by omega, by omega⟩ : _ ∧ _)]
        rw [Char.ofNat_toNat]
      · rw [if_neg hc3]
        have hup : c.toNat < 0x110000 := by
          rcases hval with h | ⟨h1, h2⟩ <;> omega
        rw [show ([0xF0 + c.toNat / 262144, 0x80 + (c.toNat / 4096) % 64,
            0x80 + (c.toNat / 64) % 64, 0x80 + c.toNat % 64] ++ rest : List Nat) =
          (0xF0 + c.toNat / 262144) :: (0x80 + (c.toNat / 4096) % 64) ::
            (0x80 + (c.toNat / 64) % 64) :: (0x80 + c.toNat % 64) :: rest from
          rfl, utf8DecodeGo]
        have hdm := Nat.div_add_mod c.toNat 64
        have hdm2 := Nat.div_add_mod (c.toNat / 64) 64
        have hdm3 := Nat.div_add_mod (c.toNat / 4096) 64
        have hdd : c.toNat / 64 / 64 = c.toNat / 4096 := by
          rw [Nat.div_div_eq_div_mul]
        have hdd2 : c.toNat / 4096 / 64 = c.toNat / 262144 := by
          rw [Nat.div_div_eq_div_mul]
        have hm1 : c.toNat % 64 < 64 := Nat.mod_lt _ (by omega)
        have hm2 : (c.toNat / 64) % 64 < 64 := Nat.mod_lt _ (by omega)
        have hm3 : (c.toNat / 4096) % 64 < 64 := Nat.mod_lt _ (by omega)
        have hd1 : c.toNat / 262144 < 5 := by
          rw [← hdd2, ← hdd]; omega
        rw [if_neg (by omega), if_neg (by omega), if_neg (by omega),
          if_pos (by omega)]
        simp only [List.getD_cons_zero, List.getD_cons_succ,
          List.drop_succ_cons, List.drop_zero]
        rw [if_pos (by refine ⟨⟨?_, ?_⟩, ?_⟩ <;> (simp [contB]; omega))]
        have hrec : (0xF0 + c.toNat / 262144 - 0xF0) * 262144 +
            (0x80 + (c.toNat / 4096) % 64 - 0x80) * 4096 +
            (0x80 + (c.toNat / 64) % 64 - 0x80) * 64 +
            (0x80 + c.toNat % 64 - 0x80) = c.toNat := by
          rw [← hdd2, ← hdd]
          omega
        rw [hrec]
        rw [if_pos (by omega)]
        rw [Char.ofNat_toNat]

theorem utf8DecodeGo_encodeList (cs : List Char) :
    ∀ fuel, cs.length ≤ fuel →
      utf8DecodeGo fuel (utf8EncodeList cs) = some cs := by
  induction cs with
  | nil => intro fuel _; cases fuel <;> rfl
  | cons c rest ih =>
    intro fuel hf
    cases fuel with
    | zero => simp at hf
    | succ f =>
      rw [utf8EncodeList, utf8DecodeGo_encodeChar, ih f (by simpa using hf)]
      rfl

theorem utf8EncodeList_length_ge (cs : List Char) :
    cs.length ≤ (utf8EncodeList cs).length := by
  induction cs with
  | nil => simp [utf8EncodeList]
  | cons c rest ih =>
    rw [utf8EncodeList]
    have h1 : 1 ≤ (utf8EncodeChar c).length := by
      rw [utf8EncodeChar, utf8EncodeCodepoint]
      repeat' split
      all_goals simp
    simp only [List.length_append, List.length_cons]
    omega

theorem utf8DecodeList_encodeList (cs : List Char) :
    utf8DecodeList (utf8EncodeList cs) = some cs := by
  rw [utf8DecodeList]
  exact utf8DecodeGo_encodeList cs _ (utf8EncodeList_length_ge cs)

/-- The base64 alphabet. -/
def base64Alphabet : List Char :=
  "ABCDEFGHIJKLMNOPQRSTUVWXYZabcdefghijklmnopqrstuvwxyz0123456789+/".data

/-- The base64 character of a sextet. -/
def base64Char (n : Nat) : Char := base64Alphabet.getD n 'A'

/-- The sextet of a base64 character, if any. -/
def decodeBase64Char (c : Char) : Option Nat :=
  base64Alphabet.findIdx? (fun a => a == c)

theorem decodeBase64Char_base64Char : ∀ n < 64,
    decodeBase64Char (base64Char n) = some n := by decide

theorem base64Char_ne_eq : ∀ n < 64, base64Char n ≠ '=' := by decide

/-- `btoa` at the character level: 3 input bytes per 4 output characters,
padding with `'='`. -/
def btoaChars : List Nat → List Char
  | [] => []
  | [a] => [base64Char (a / 4), base64Char (a % 4 * 16), '=', '=']
  | [a, b] =>
    [base64Char (a / 4), base64Char (a % 4 * 16 + b / 16),
     base64Char (b % 16 * 4), '=']
  | a :: b :: c :: rest =>
    base64Char (a / 4) :: base64Char (a % 4 * 16 + b / 16) ::
    base64Char (b % 16 * 4 + c / 64) :: base64Char (c % 64) :: btoaChars rest

/-- `btoa(byteString)`. -/
def btoa (l : List Nat) : String := String.mk (btoaChars l)

/-- `atob` at the character level. -/
def atobChars : List Char → Option (List Nat)
  | [] => some []
  | c1 :: c2 :: c3 :: c4 :: rest =>
    if c3 = '=' ∧ c4 = '=' ∧ rest = [] then
      match decodeBase64Char c1, decodeBase64Char c2 with
      | some s1, some s2 => some [s1 * 4 + s2 / 16]
      | _, _ => none
    else if c4 = '=' ∧ rest = [] then
      match decodeBase64Char c1, decodeBase64Char c2, decodeBase64Char c3 with
      | some s1, some s2, some s3 =>
        some [s1 * 4 + s2 / 16, s2 % 16 * 16 + s3 / 4]
      | _, _, _ => none
    else
      match decodeBase64Char c1, decodeBase64Char c2, decodeBase64Char c3,
        decodeBase64Char c4 with
      | some s1, some s2, some s3, some s4 =>
        (atobChars rest).map
          (fun bs => (s1 * 4 + s2 / 16) :: (s2 % 16 * 16 + s3 / 4) ::
            (s3 % 4 * 64 + s4) :: bs)
      | _, _, _, _ => none
  | _ => none

/-- `atob(string)`. -/
def atob (s : String) : Option (List Nat) := atobChars s.data

theorem atobChars_btoaChars :
    ∀ (l : List Nat), (∀ b ∈ l, b < 256) → atobChars (btoaChars l) = some l
  | [] => fun _ => rfl
  | [a] => fun h => by
    have ha : a < 256 := h a (by simp)
    rw [btoaChars, atobChars]
    rw [if_pos ⟨rfl, rfl, rfl⟩]
    rw [decodeBase64Char_base64Char (a / 4) (by omega),
      decodeBase64Char_base64Char (a % 4 * 16) (by omega)]
    have hre : a / 4 * 4 + a % 4 * 16 / 16 = a := by omega
    show some [a / 4 * 4 + a % 4 * 16 / 16] = some [a]
    rw [hre]
  | [a, b] => fun h => by
    have ha : a < 256 := h a (by simp)
    have hb : b < 256 := h b (by simp)
    rw [btoaChars, atobChars]
    rw [if_neg (by
      intro hcon
      exact base64Char_ne_eq (b % 16 * 4) (by omega) hcon.1)]
    rw [if_pos ⟨rfl, rfl⟩]
    rw [decodeBase64Char_base64Char (a / 4) (by omega),
      decodeBase64Char_base64Char (a % 4 * 16 + b / 16) (by omega),
      decodeBase64Char_base64Char (b % 16 * 4) (by omega)]
    have h1 : a / 4 * 4 + (a % 4 * 16 + b / 16) / 16 = a := by omega
    have h2 : (a % 4 * 16 + b / 16) % 16 * 16 + b % 16 * 4 / 4 = b := by omega
    show some [a / 4 * 4 + (a % 4 * 16 + b / 16) / 16,
      (a % 4 * 16 + b / 16) % 16 * 16 + b % 16 * 4 / 4] = some [a, b]
    rw [h1, h2]
  | a :: b :: c :: d :: rest' => fun h => by
    have ha : a < 256 := h a (by simp)
    have hb : b < 256 := h b (by simp)
    have hc : c < 256 := h c (by simp)
    rw [btoaChars, atobChars]
    rw [if_neg (by
      intro hcon
      exact base64Char_ne_eq (b % 16 * 4 + c / 64) (by omega) hcon.1)]
    rw [if_neg (by
      intro hcon
      exact base64Char_ne_eq (c % 64) (by omega) hcon.1)]
    rw [decodeBase64Char_base64Char (a / 4) (by omega),
      decodeBase64Char_base64Char (a % 4 * 16 + b / 16) (by omega),
      decodeBase64Char_base64Char (b % 16 * 4 + c / 64) (by omega),
      decodeBase64Char_base64Char (c % 64) (by omega)]
    rw [atobChars_btoaChars (d :: rest') (fun x hx => h x (by simp [hx]))]
    have h1 : a / 4 * 4 + (a % 4 * 16 + b / 16) / 16 = a := by omega
    have h2 : (a % 4 * 16 + b / 16) % 16 * 16 + (b % 16 * 4 + c / 64) / 4 = b := by
      omega
    have h3 : (b % 16 * 4 + c / 64) % 4 * 64 + c % 64 = c := by omega
    show some ((a / 4 * 4 + (a % 4 * 16 + b / 16) / 16) ::
      ((a % 4 * 16 + b / 16) % 16 * 16 + (b % 16 * 4 + c / 64) / 4) ::
      ((b % 16 * 4 + c / 64) % 4 * 64 + c % 64) :: d :: rest') =
      some (a :: b :: c :: d :: rest')
    rw [h1, h2, h3]
  | [a, b, c] => fun h => by
    have ha : a < 256 := h a (by simp)
    have hb : b < 256 := h b (by simp)
    have hc : c < 256 := h c (by simp)
    rw [btoaChars, atobChars]
    rw [if_neg (by
      intro hcon
      exact base64Char_ne_eq (b % 16 * 4 + c / 64) (by omega) hcon.1)]
    rw [if_neg (by
      intro hcon
      exact base64Char_ne_eq (c % 64) (by omega) hcon.1)]
    rw [decodeBase64Char_base64Char (a / 4) (by omega),
      decodeBase64Char_base64Char (a % 4 * 16 + b / 16) (by omega),
      decodeBase64Char_base64Char (b % 16 * 4 + c / 64) (by omega),
      decodeBase64Char_base64Char (c % 64) (by omega)]
    have h1 : a / 4 * 4 + (a % 4 * 16 + b / 16) / 16 = a := by omega
    have h2 : (a % 4 * 16 + b / 16) % 16 * 16 + (b % 16 * 4 + c / 64) / 4 = b := by
      omega
    have h3 : (b % 16 * 4 + c / 64) % 4 * 64 + c % 64 = c := by omega
    show some ((a / 4 * 4 + (a % 4 * 16 + b / 16) / 16) ::
      ((a % 4 * 16 + b / 16) % 16 * 16 + (b % 16 * 4 + c / 64) / 4) ::
      ((b % 16 * 4 + c / 64) % 4 * 64 + c % 64) :: []) = some [a, b, c]
    rw [h1, h2, h3]

/-- `TextEncoder.encode`: UTF-8 bytes of a string. -/
def textEncoderEncode (s : String) : List Nat := utf8EncodeList s.data

/-- `TextDecoder.decode`: parse UTF-8 bytes back to a string (`none` models
a decoding failure). -/
def textDecoderDecode (l : List Nat) : Option String :=
  (utf8DecodeList l).map (fun cs => String.mk cs)

/-- Modelled from the spec: the AES-GCM block-level pseudorandom byte used
by the Web Crypto AEAD — a concrete keyed function of key, IV and stream
position.  Every property proved below depends only on the keystream/tag
structure of the AEAD, not on this function. -/
def prfByte (key iv : List Nat) (i : Nat) : Nat :=
  (key.foldl (fun acc b => acc * 31 + b) 7 +
   iv.foldl (fun acc b => acc * 37 + b) 11 + i * 101) % 256

/-- The CTR keystream: `n` bytes derived from key and IV. -/
def keystream (key iv : List Nat) (n : Nat) : List Nat :=
  (List.range n).map (prfByte key iv)

/-- The 16-byte authentication tag over the ciphertext. -/
def gcmTag (key iv ct : List Nat) : List Nat :=
  (List.range 16).map (fun i => prfByte key (iv ++ ct) (i + 1000))

/-- Modelled from the spec: `crypto.subtle.encrypt` with AES-GCM — XOR the
plaintext with the keystream and append the authentication tag. -/
def aesGcmEncrypt (key iv pt : List Nat) : List Nat :=
  let ct := List.zipWith (fun a b => a ^^^ b) pt (keystream key iv pt.length)
  ct ++ gcmTag key iv ct

/-- Modelled from the spec: `crypto.subtle.decrypt` with AES-GCM — split
off and check the tag (failing closed), then XOR with the keystream. -/
def aesGcmDecrypt (key iv data : List Nat) : Option (List Nat) :=
  if data.length < 16 then none
  else
    let ct := data.take (data.length - 16)
    let tag := data.drop (data.length - 16)
    if tag = gcmTag key iv ct then
      some (List.zipWith (fun a b => a ^^^ b) ct (keystream key iv ct.length))
    else none

theorem keystream_length (key iv : List Nat) (n : Nat) :
    (keystream key iv n).length = n := by
  simp [keystream]

theorem keystream_lt (key iv : List Nat) (n : Nat) :
    ∀ b ∈ keystream key iv n, b < 256 := by
  intro b hb
  simp only [keystream, List.mem_map] at hb
  obtain ⟨i, _, hi⟩ := hb
  rw [← hi]
  exact Nat.mod_lt _ (by omega)

theorem gcmTag_lt (key iv ct : List Nat) : ∀ b ∈ gcmTag key iv ct, b < 256 := by
  intro b hb
  simp only [gcmTag, List.mem_map] at hb
  obtain ⟨i, _, hi⟩ := hb
  rw [← hi]
  exact Nat.mod_lt _ (by omega)

theorem zipWith_xor_lt :
    ∀ (l1 l2 : List Nat), (∀ b ∈ l1, b < 256) → (∀ b ∈ l2, b < 256) →
      ∀ b ∈ List.zipWith (fun a b => a ^^^ b) l1 l2, b < 256 := by
  intro l1
  induction l1 with
  | nil => intro l2 _ _ b hb; simp at hb
  | cons a rest ih =>
    intro l2 h1 h2 b hb
    cases l2 with
    | nil => simp at hb
    | cons k ks =>
      rw [List.zipWith_cons_cons] at hb
      rcases List.mem_cons.mp hb with hb | hb
      · rw [hb]
        have ha : a < 256 := h1 a (by simp)
        have hk : k < 256 := h2 k (by simp)
        calc a ^^^ k < 2 ^ 8 := Nat.xor_lt_two_pow ha hk
        _ = 256 := rfl
      · exact ih ks (fun x hx => h1 x (by simp [hx]))
          (fun x hx => h2 x (by simp [hx])) b hb

theorem zipWith_xor_cancel :
    ∀ (l ks : List Nat), l.length = ks.length →
      List.zipWith (fun a b => a ^^^ b)
        (List.zipWith (fun a b => a ^^^ b) l ks) ks = l := by
  intro l
  induction l with
  | nil => intro ks _; simp
  | cons a rest ih =>
    intro ks hlen
    cases ks with
    | nil => simp at hlen
    | cons k krest =>
      rw [List.zipWith_cons_cons, List.zipWith_cons_cons]
      rw [Nat.xor_assoc, Nat.xor_self, Nat.xor_zero]
      rw [ih krest (by simpa using hlen)]

theorem aesGcmDecrypt_encrypt (key iv pt : List Nat) :
    aesGcmDecrypt key iv (aesGcmEncrypt key iv pt) = some pt := by
  rw [aesGcmEncrypt, aesGcmDecrypt]
  set C := List.zipWith (fun a b => a ^^^ b) pt (keystream key iv pt.length)
    with hC
  set T := gcmTag key iv C with hT
  have hCl : C.length = pt.length := by
    rw [hC]; simp [List.length_zipWith, keystream_length]
  have hTl : T.length = 16 := by rw [hT]; simp [gcmTag]
  have hlen : (C ++ T).length = pt.length + 16 := by
    simp [List.length_append, hCl, hTl]
  rw [if_neg (by omega)]
  have hsub : (C ++ T).length - 16 = C.length := by omega
  rw [hsub, List.take_left, List.drop_left]
  rw [if_pos hT]
  rw [hCl, hC]
  exact congrArg some (zipWith_xor_cancel pt _ (by rw [keystream_length]))

theorem utf8EncodeChar_lt (c : Char) : ∀ b ∈ utf8EncodeChar c, b < 256 := by
  have hval := c.valid
  have htn : c.toNat = c.val.toNat := rfl
  have hup : c.toNat < 0x110000 := by
    rcases hval with h | ⟨h1, h2⟩ <;> omega
  intro b hb
  rw [utf8EncodeChar, utf8EncodeCodepoint] at hb
  by_cases hc1 : c.toNat < 0x80
  · rw [if_pos hc1] at hb
    simp at hb
    omega
  · rw [if_neg hc1] at hb
    by_cases hc2 : c.toNat < 0x800
    · rw [if_pos hc2] at hb
      have := Nat.div_add_mod c.toNat 64
      have : c.toNat % 64 < 64 := Nat.mod_lt _ (by omega)
      simp at hb
      rcases hb with hb | hb <;> omega
    · rw [if_neg hc2] at hb
      by_cases hc3 : c.toNat < 0x10000
      · rw [if_pos hc3] at hb
        have h1 : c.toNat / 4096 < 16 := by omega
        have h2 : (c.toNat / 64) % 64 < 64 := Nat.mod_lt _ (by omega)
        have h3 : c.toNat % 64 < 64 := Nat.mod_lt _ (by omega)
        simp at hb
        rcases hb with hb | hb | hb <;> omega
      · rw [if_neg hc3] at hb
        have h1 : c.toNat / 262144 < 5 := by omega
        have h2 : (c.toNat / 4096) % 64 < 64 := Nat.mod_lt _ (by omega)
        have h3 : (c.toNat / 64) % 64 < 64 := Nat.mod_lt _ (by omega)
        have h4 : c.toNat % 64 < 64 := Nat.mod_lt _ (by omega)
        simp at hb
        rcases hb with hb | hb | hb | hb <;> omega

theorem utf8EncodeList_lt (cs : List Char) :
    ∀ b ∈ utf8EncodeList cs, b < 256 := by
  induction cs with
  | nil => intro b hb; simp [utf8EncodeList] at hb
  | cons c rest ih =>
    intro b hb
    rw [utf8EncodeList] at hb
    rcases List.mem_append.mp hb with hb | hb
    · exact utf8EncodeChar_lt c b hb
    · exact ih b hb

/-- `EncryptionService.encrypt` (`encryption.ts`): UTF-8 encode the
plaintext, AES-GCM encrypt it under the cached key with the fresh random
96-bit IV passed explicitly, and base64 both the ciphertext and the IV. -/
def encrypt (key iv : List Nat) (plaintext : String) : String × String :=
  let encoded := textEncoderEncode plaintext
  let encrypted := aesGcmEncrypt key iv encoded
  (btoa encrypted, btoa iv)

/-- `EncryptionService.decrypt` (`encryption.ts`): base64-decode the
ciphertext and IV, AES-GCM decrypt under the cached key (failing closed on
authentication failure), and UTF-8 decode the plaintext. -/
def decrypt (key : List Nat) (encryptedBase64 ivBase64 : String) :
    Option String :=
  match atob encryptedBase64, atob ivBase64 with
  | some encrypted, some iv =>
    match aesGcmDecrypt key iv encrypted with
    | some decrypted => textDecoderDecode decrypted
    | none => none
  | _, _ => none

/-- C2.  Encryption round-trip: for every plaintext string, including the
empty string and multi-byte text, decrypting the (ciphertext, IV) pair
produced by `encrypt` under the same cached key returns exactly the
plaintext.  The IV is the byte string `crypto.getRandomValues` filled in
(each entry a byte). -/
theorem decrypt_encrypt (key iv : List Nat) (x : String)
    (hiv : ∀ b ∈ iv, b < 256) :
    decrypt key (encrypt key iv x).1 (encrypt key iv x).2 = some x := by
  rw [encrypt, decrypt]
  have hbytes : ∀ b ∈ aesGcmEncrypt key iv (textEncoderEncode x), b < 256 := by
    intro b hb
    rw [aesGcmEncrypt] at hb
    rcases List.mem_append.mp hb with hb | hb
    · exact zipWith_xor_lt _ _ (utf8EncodeList_lt x.data)
        (keystream_lt key iv _) b hb
    · exact gcmTag_lt key iv _ b hb
  rw [show atob (btoa (aesGcmEncrypt key iv (textEncoderEncode x))) =
      some (aesGcmEncrypt key iv (textEncoderEncode x)) from
    atobChars_btoaChars _ hbytes]
  rw [show atob (btoa iv) = some iv from atobChars_btoaChars _ hiv]
  show (match aesGcmDecrypt key iv (aesGcmEncrypt key iv (textEncoderEncode x)) with
    | some decrypted => textDecoderDecode decrypted
    | none => none) = some x
  rw [aesGcmDecrypt_encrypt]
  show textDecoderDecode (textEncoderEncode x) = some x
  rw [textDecoderDecode, textEncoderEncode, utf8DecodeList_encodeList]
  rfl

/-- Witness for C2 at concrete inputs: a multi-byte plaintext (2-, 3- and
4-byte UTF-8 sequences) and the empty string both round-trip under a
concrete key and IV. -/
theorem decrypt_encrypt_witness :
    decrypt [1, 2, 3] (encrypt [1, 2, 3] [9, 8, 7, 6, 5, 4, 3, 2, 1, 0, 1, 2] "héllo ✓ 𝄞").1
        (encrypt [1, 2, 3] [9, 8, 7, 6, 5, 4, 3, 2, 1, 0, 1, 2] "héllo ✓ 𝄞").2 =
      some "héllo ✓ 𝄞" ∧
    decrypt [1, 2, 3] (encrypt [1, 2, 3] [9, 8, 7, 6, 5, 4, 3, 2, 1, 0, 1, 2] "").1
        (encrypt [1, 2, 3] [9, 8, 7, 6, 5, 4, 3, 2, 1, 0, 1, 2] "").2 =
      some "" :=
  ⟨decrypt_encrypt [1, 2, 3] [9, 8, 7, 6, 5, 4, 3, 2, 1, 0, 1, 2] "héllo ✓ 𝄞"
      (by decide),
   decrypt_encrypt [1, 2, 3] [9, 8, 7, 6, 5, 4, 3, 2, 1, 0, 1, 2] ""
      (by decide)⟩

/-! ## Key derivation (`deriveKey`, `encryption.ts`)

`deriveKey` calls `crypto.subtle.deriveKey` with PBKDF2 / SHA-256 /
100,000 iterations / a 256-bit AES-GCM key.  PBKDF2-HMAC-SHA256 is
implemented in full below (SHA-256, HMAC, the iterated-XOR block
function), with the passphrase UTF-8 encoded as in the source.  The
implementation is pinned by test vectors (`sha256_empty_vector`,
`sha256_abc_vector`) proved by evaluation. -/

/-- 32-bit truncation. -/
def w32 (x : Nat) : Nat := x % 4294967296

/-- 32-bit right rotation (for `x < 2^32`). -/
def rotr32 (x k : Nat) : Nat :=
  w32 (x / 2 ^ k + x % 2 ^ k * 2 ^ (32 - k))

/-- The 64 SHA-256 round constants. -/
def sha256K : List Nat :=
  [1116352408, 1899447441, 3049323471, 3921009573,
   961987163, 1508970993, 2453635748, 2870763221,
   3624381080, 310598401, 607225278, 1426881987,
   1925078388, 2162078206, 2614888103, 3248222580,
   3835390401, 4022224774, 264347078, 604807628,
   770255983, 1249150122, 1555081692, 1996064986,
   2554220882, 2821834349, 2952996808, 3210313671,
   3336571891, 3584528711, 113926993, 338241895,
   666307205, 773529912, 1294757372, 1396182291,
   1695183700, 1986661051, 2177026350, 2456956037,
   2730485921, 2820302411, 3259730800, 3345764771,
   3516065817, 3600352804, 4094571909, 275423344,
   430227734, 506948616, 659060556, 883997877,
   958139571, 1322822218, 1537002063, 1747873779,
   1955562222, 2024104815, 2227730452, 2361852424,
   2428436474, 2756734187, 3204031479, 3329325298]

/-- The SHA-256 message-schedule sigma functions. -/
def smallSigma0 (x : Nat) : Nat := rotr32 x 7 ^^^ rotr32 x 18 ^^^ x / 8

def smallSigma1 (x : Nat) : Nat := rotr32 x 17 ^^^ rotr32 x 19 ^^^ x / 1024

/-- The SHA-256 compression sigma functions. -/
def bigSigma0 (x : Nat) : Nat := rotr32 x 2 ^^^ rotr32 x 13 ^^^ rotr32 x 22

def bigSigma1 (x : Nat) : Nat := rotr32 x 6 ^^^ rotr32 x 11 ^^^ rotr32 x 25

def chF (x y z : Nat) : Nat := x &&& y ^^^ (x ^^^ 4294967295) &&& z

def majF (x y z : Nat) : Nat := x &&& y ^^^ x &&& z ^^^ y &&& z

/-- Merkle–Damgård padding: a `0x80` byte, zeros to 56 mod 64, and the
bit length as 8 big-endian bytes. -/
def sha256Pad (msg : List Nat) : List Nat :=
  let len := msg.length
  let bitLen := len * 8
  let padZeros := (119 - len % 64) % 64
  msg ++ [128] ++ List.replicate padZeros 0 ++
    [bitLen / 72057594037927936 % 256, bitLen / 281474976710656 % 256,
     bitLen / 1099511627776 % 256, bitLen / 4294967296 % 256,
     bitLen / 16777216 % 256, bitLen / 65536 % 256,
     bitLen / 256 % 256, bitLen % 256]

/-- Split into 64-byte blocks (the byte count is always enough fuel). -/
def chunks64Go : Nat → List Nat → List (List Nat)
  | _, [] => []
  | 0, _ :: _ => []
  | fuel + 1, a :: rest =>
    ((a :: rest).take 64) :: chunks64Go fuel ((a :: rest).drop 64)

def chunks64 (l : List Nat) : List (List Nat) := chunks64Go l.length l

/-- Big-endian 32-bit word `i` of a 64-byte block. -/
def bytesToWord (l : List Nat) (i : Nat) : Nat :=
  l.getD (4 * i) 0 * 16777216 + l.getD (4 * i + 1) 0 * 65536 +
    l.getD (4 * i + 2) 0 * 256 + l.getD (4 * i + 3) 0

/-- One message-schedule extension step. -/
def scheduleStep (acc : List Nat) : List Nat :=
  let n := acc.length
  acc ++ [w32 (acc.getD (n - 16) 0 + smallSigma0 (acc.getD (n - 15) 0) +
    acc.getD (n - 7) 0 + smallSigma1 (acc.getD (n - 2) 0))]

def scheduleGo : Nat → List Nat → List Nat
  | 0, acc => acc
  | k + 1, acc => scheduleGo k (scheduleStep acc)

/-- The 64-word message schedule of a block. -/
def msgSchedule (block : List Nat) : List Nat :=
  scheduleGo 48 ((List.range 16).map (bytesToWord block))

/-- The eight 32-bit words of the hash state. -/
structure Sha256State where
  h0 : Nat
  h1 : Nat
  h2 : Nat
  h3 : Nat
  h4 : Nat
  h5 : Nat
  h6 : Nat
  h7 : Nat
deriving DecidableEq, Repr

def sha256Init : Sha256State :=
  ⟨1779033703, 3144134277, 1013904242, 2773480762,
   1359893119, 2600822924, 528734635, 1541459225⟩

/-- The working variables a–h of the compression loop. -/
structure Sha256Work where
  a : Nat
  b : Nat
  c : Nat
  d : Nat
  e : Nat
  f : Nat
  g : Nat
  h : Nat
deriving DecidableEq, Repr

/-- One compression round with round constant `kw.1` and schedule word
`kw.2`. -/
def roundFn (st : Sha256Work) (kw : Nat × Nat) : Sha256Work :=
  let t1 := w32 (st.h + bigSigma1 st.e + chF st.e st.f st.g + kw.1 + kw.2)
  let t2 := w32 (bigSigma0 st.a + majF st.a st.b st.c)
  ⟨w32 (t1 + t2), st.a, st.b, st.c, w32 (st.d + t1), st.e, st.f, st.g⟩

/-- Compress one 64-byte block into the hash state. -/
def compressBlock (st : Sha256State) (block : List Nat) : Sha256State :=
  let ws := msgSchedule block
  let fin := (List.zip sha256K ws).foldl roundFn
    ⟨st.h0, st.h1, st.h2, st.h3, st.h4, st.h5, st.h6, st.h7⟩
  ⟨w32 (st.h0 + fin.a), w32 (st.h1 + fin.b), w32 (st.h2 + fin.c),
   w32 (st.h3 + fin.d), w32 (st.h4 + fin.e), w32 (st.h5 + fin.f),
   w32 (st.h6 + fin.g), w32 (st.h7 + fin.h)⟩

/-- Big-endian bytes of a 32-bit word. -/
def wordBytes (w : Nat) : List Nat :=
  [w / 16777216 % 256, w / 65536 % 256, w / 256 % 256, w % 256]

/-- SHA-256 of a byte string (32-byte digest). -/
def sha256 (msg : List Nat) : List Nat :=
  let st := (chunks64 (sha256Pad msg)).foldl compressBlock sha256Init
  wordBytes st.h0 ++ wordBytes st.h1 ++ wordBytes st.h2 ++ wordBytes st.h3 ++
    wordBytes st.h4 ++ wordBytes st.h5 ++ wordBytes st.h6 ++ wordBytes st.h7

/-- HMAC-SHA256. -/
def hmacSha256 (key msg : List Nat) : List Nat :=
  let key1 := if 64 < key.length then sha256 key else key
  let key0 := key1 ++ List.replicate (64 - key1.length) 0
  let ipad := key0.map (fun b => b ^^^ 54)
  let opad := key0.map (fun b => b ^^^ 92)
  sha256 (opad ++ sha256 (ipad ++ msg))

/-- The iterated-XOR loop of PBKDF2: `k` further HMAC iterations folded
into the accumulator. -/
def pbkdf2Go : Nat → List Nat → List Nat → List Nat → List Nat
  | 0, _, _, acc => acc
  | k + 1, pw, uPrev, acc =>
    let u := hmacSha256 pw uPrev
    pbkdf2Go k pw u (List.zipWith (fun a b => a ^^^ b) acc u)

/-- The first (and only needed) PBKDF2-HMAC-SHA256 output block
`T_1 = U_1 xor ... xor U_c`. -/
def pbkdf2Block (pw salt : List Nat) (c : Nat) : List Nat :=
  let u1 := hmacSha256 pw (salt ++ [0, 0, 0, 1])
  pbkdf2Go (c - 1) pw u1 u1

/-- The fixed iteration count of `deriveKey` (`encryption.ts`). -/
def PBKDF2_ITERATIONS : Nat := 100000

/-- `EncryptionService.deriveKey` (`encryption.ts`): PBKDF2 key stretching
over (HMAC-)SHA-256 with 100,000 iterations, deriving a 256-bit (32-byte)
AES key from the UTF-8 bytes of the passphrase and the salt. -/
def deriveKey (passphrase : String) (salt : List Nat) : List Nat :=
  (pbkdf2Block (textEncoderEncode passphrase) salt PBKDF2_ITERATIONS).take 32

theorem sha256_empty_vector :
    sha256 [] =
      [227, 176, 196, 66, 152, 252, 28, 20, 154, 251, 244, 200, 153, 111,
       185, 36, 39, 174, 65, 228, 100, 155, 147, 76, 164, 149, 153, 27,
       120, 82, 184, 85] := by decide

theorem sha256_abc_vector :
    sha256 [97, 98, 99] =
      [186, 120, 22, 191, 143, 1, 207, 234, 65, 65, 64, 222, 93, 174, 34,
       35, 176, 3, 97, 163, 150, 23, 122, 156, 180, 16, 255, 97, 242, 0,
       21, 173] := by decide

theorem sha256_length (msg : List Nat) : (sha256 msg).length = 32 := by
  simp [sha256, wordBytes]

theorem hmacSha256_length (key msg : List Nat) :
    (hmacSha256 key msg).length = 32 := by
  rw [hmacSha256]
  exact sha256_length _

theorem pbkdf2Go_length :
    ∀ (k : Nat) (pw uPrev acc : List Nat), acc.length = 32 →
      (pbkdf2Go k pw uPrev acc).length = 32 := by
  intro k
  induction k with
  | zero => intro pw uPrev acc h; exact h
  | succ n ih =>
    intro pw uPrev acc h
    rw [pbkdf2Go]
    exact ih _ _ _ (by simp [List.length_zipWith, h, hmacSha256_length])

theorem pbkdf2Block_length (pw salt : List Nat) (c : Nat) :
    (pbkdf2Block pw salt c).length = 32 := by
  rw [pbkdf2Block]
  exact pbkdf2Go_length _ _ _ _ (hmacSha256_length _ _)

/-- C3.  `deriveKey` derives a 256-bit (32-byte) symmetric key, does so via
PBKDF2 key stretching over (HMAC-)SHA-256 with the fixed iteration count
`PBKDF2_ITERATIONS = 100000 ≥ 100,000`, and is deterministic: any two
invocations on the same (passphrase, salt) pair yield the same key. -/
theorem deriveKey_spec :
    (∀ (passphrase : String) (salt : List Nat),
      (deriveKey passphrase salt).length = 32) ∧
    100000 ≤ PBKDF2_ITERATIONS ∧
    (∀ (passphrase : String) (salt : List Nat),
      deriveKey passphrase salt =
        (pbkdf2Block (textEncoderEncode passphrase) salt
          PBKDF2_ITERATIONS).take 32) ∧
    (∀ (p₁ p₂ : String) (s₁ s₂ : List Nat), p₁ = p₂ → s₁ = s₂ →
      deriveKey p₁ s₁ = deriveKey p₂ s₂) := by
  refine ⟨?_, by decide, fun _ _ => rfl, ?_⟩
  · intro passphrase salt
    rw [deriveKey, List.length_take, pbkdf2Block_length]
    rfl
  · intro p₁ p₂ s₁ s₂ h1 h2
    rw [h1, h2]

/-- Witness for C3 at concrete inputs: two invocations of `deriveKey` on
the same (passphrase, salt) pair agree. -/
theorem deriveKey_spec_witness :
    deriveKey "a" [1, 2] = deriveKey "a" [1, 2] :=
  deriveKey_spec.2.2.2 "a" "a" [1, 2] [1, 2] rfl rfl


end Jottin
